import Mathlib

/-!
Verification development for the pocket-tts.cpp generation engine
(`src/pocket_tts.cpp`, `src/audio_utils.cpp`).

Shallow embedding conventions:
* `float` values are modelled by exact rationals `ℚ`; float32 rounding is
  abstracted away (the claims under study are control-flow / structural,
  not rounding-sensitive).
* The opaque ONNX computation units (`flow_lm_main`, `flow_lm_flow`,
  `mimi_decoder`, `mimi_encoder`) are modelled as pure functions of their
  named inputs plus the explicitly threaded recurrent state, exactly as the
  C++ core treats them (a `Units` record, universally quantified in the
  theorems).
* The RNG draws of `std::normal_distribution` (used only when
  `temperature > 0`) are modelled by an oracle `noise : ℕ → Vec32`
  supplying the 32-wide draw of each autoregressive step.
* The cancellation flag (`std::atomic<bool> cancelRequested`), written by
  another thread, is modelled by the sequence of values the loop observes:
  `obs : ℕ → Bool` (the check at the top of step `step`) and `fin : Bool`
  (the check guarding the post-loop residual flush).
-/

namespace PocketTTS

/-- A latent frame / 32-wide float vector (`std::vector<float>` of size 32). -/
abbrev Vec32 : Type := List ℚ

/-- The zero 32-vector (`std::vector<float> x(32)value-initialized). -/
def zeroVec32 : Vec32 := List.replicate 32 0

/-- The `sequence` input fed to `flow_lm_main`: either the empty sequence
(shape `[1,0,32]`), the NaN-sentinel initial frame
(`std::vector<float> current(32, std::nanf(""))` — NaN is not a rational,
so it is modelled as a distinguished constructor), or a real latent frame. -/
inductive SeqIn : Type
  | emptySeq : SeqIn
  | nanFrame : SeqIn
  | frame (v : Vec32) : SeqIn
deriving DecidableEq

/-- A `text_embeddings` context input: embedding buffer plus its shape
(e.g. `{1, n, 1024}`). -/
abbrev Ctx : Type := List ℚ × List ℤ

/-- The empty context passed during autoregressive steps
(`emptyText` with shape `{1, 0, 1024}`). -/
def emptyCtx : Ctx := ([], [1, 0, 1024])

/-- The opaque inference units consumed by the generation core, as pure
functions of their named inputs and explicitly threaded state
(`L` = recurrent state type of `flow_lm_main`, `D` = recurrent state type
of `mimi_decoder`).  `mainStep` models `runFlowLmMainStep` (returns the
conditioning vector, the scalar EOS logit, and the updated state);
`flowDir` models `runFlowLmFlow` on inputs `(c, s, t, x)`; `decode` models
one `mimiDecoder->Run` invocation on a latent batch plus decoder state,
returning the audio samples and the updated state. -/
structure Units (L D : Type) : Type where
  mainStep : SeqIn → Ctx → L → List ℚ × ℚ × L
  flowDir : List ℚ → ℚ → ℚ → Vec32 → Vec32
  decode : List Vec32 → D → List ℚ × D
  lmInit : L
  decInit : D

/-- The recognized configuration surface (`PocketTTSConfig`).
`maxFrames` is a C++ `int`; a non-positive value runs the loop zero times,
which `ℕ` with value `0` captures.  `framesAfterEos` is kept as `ℤ`. -/
structure TTSConfig : Type where
  temperature : ℚ
  lsdSteps : ℕ
  maxFrames : ℕ
  framesAfterEos : ℤ
deriving DecidableEq

/-- `StreamingConfig`: chunk size in frames (C++ `int`) and the
cancellation-enable switch.  The optional progress callback is omitted
(it only reports, it does not influence the run). -/
structure SConfig : Type where
  chunkSizeFrames : ℤ
  enableCancellation : Bool
deriving DecidableEq

/-- `precomputeFlowBuffers`: for `j < lsdSteps`, the pair
`(s, t) = (j / lsdSteps, j / lsdSteps + dt)` with `dt = 1 / lsdSteps`,
computed once per configuration. -/
def stBuffers (L : ℕ) : List (ℚ × ℚ) :=
  (List.range L).map
    (fun (j : ℕ) => ((j : ℚ) / (L : ℚ), (j : ℚ) / (L : ℚ) + 1 / (L : ℚ)))

/-- One Euler advance: `x[k] += flowOut[k] * dt` with `dt = 1 / lsdSteps`. -/
def eulerAdvance (L : ℕ) (x dir : Vec32) : Vec32 :=
  List.zipWith (fun xk dk => xk + dk * (1 / (L : ℚ))) x dir

/-- The inner flow-integration loop of `generate` / `generateStreaming`:
`for j < lsdSteps: flowOut := flowDir(c, stBuffers[j].first,
stBuffers[j].second, x); x += flowOut * dt`. -/
def eulerCode (flow : List ℚ → ℚ → ℚ → Vec32 → Vec32) (L : ℕ)
    (cond : List ℚ) (x0 : Vec32) : Vec32 :=
  (stBuffers L).foldl (fun x st => eulerAdvance L x (flow cond st.1 st.2 x)) x0

/-- The initial 32-vector of one autoregressive step: the fresh Gaussian
draw when `temperature > 0`, otherwise the zero vector
(`std::vector<float> x(32)` left value-initialized). -/
def initVec (cfg : TTSConfig) (noise : ℕ → Vec32) (step : ℕ) : Vec32 :=
  if 0 < cfg.temperature then noise step else zeroVec32

/-- EOS record update: `if (eosLogit > -4.0f && eosStep < 0) eosStep = step;`
(`none` models `eosStep == -1`). -/
def eosUpd (eosL : ℚ) (eos : Option ℕ) (step : ℕ) : Option ℕ :=
  if (-4 : ℚ) < eosL ∧ eos = none then some step else eos

/-- Loop stop check: `eosStep >= 0 && step >= eosStep + framesAfterEos`. -/
def stopNow (eos : Option ℕ) (step : ℕ) (f : ℤ) : Bool :=
  match eos with
  | none => false
  | some e => (e : ℤ) + f ≤ (step : ℤ)

/-- The mutable state of the batch autoregressive loop of
`PocketTTS::Impl::generate`: LM recurrent state, the `current` sequence
input, the recorded `eosStep`, and `allLatents`. -/
structure GenSt (L : Type) : Type where
  lm : L
  cur : SeqIn
  eos : Option ℕ
  lat : List Vec32

/-- The batch autoregressive loop (`for step < maxFrames` in `generate`),
with `fuel = maxFrames - step` remaining iterations.  Each iteration runs
the main unit, updates the EOS record, either breaks (when the grace
window expired) or integrates a new latent frame and appends it. -/
def genLoop {L D : Type} (U : Units L D) (cfg : TTSConfig) (noise : ℕ → Vec32) :
    ℕ → ℕ → GenSt L → GenSt L
  | 0, _, g => g
  | fuel + 1, step, g =>
    let r := U.mainStep g.cur emptyCtx g.lm
    let eos2 := eosUpd r.2.1 g.eos step
    if stopNow eos2 step cfg.framesAfterEos then
      { g with lm := r.2.2, eos := eos2 }
    else
      let x := eulerCode U.flowDir cfg.lsdSteps r.1 (initVec cfg noise step)
      genLoop U cfg noise fuel (step + 1)
        { lm := r.2.2, cur := SeqIn.frame x, eos := eos2, lat := g.lat ++ [x] }

/-- The two conditioning passes of `generate`/`generateStreaming`: invoke
the main unit on the empty sequence with the voice context, then with the
text context, keeping only the updated state. -/
def condPasses {L D : Type} (U : Units L D) (vCtx tCtx : Ctx) : L :=
  let s1 := (U.mainStep SeqIn.emptySeq vCtx U.lmInit).2.2
  (U.mainStep SeqIn.emptySeq tCtx s1).2.2

/-- `PocketTTS::Impl::generate` up to (and including) the autoregressive
loop: conditioning passes from the freshly initialized LM state, then the
loop from step 0 with the NaN-sentinel frame and no EOS recorded. -/
def runGenerate {L D : Type} (U : Units L D) (cfg : TTSConfig)
    (vCtx tCtx : Ctx) (noise : ℕ → Vec32) : GenSt L :=
  genLoop U cfg noise cfg.maxFrames 0
    { lm := condPasses U vCtx tCtx, cur := SeqIn.nanFrame, eos := none, lat := [] }

/-- Fuel-indexed version of the 15-frame chunked decode (each round
consumes at least one frame, so `fuel = length` suffices; the fuel only
makes the recursion structural). -/
def decodeChunkedF {D : Type} (d : List Vec32 → D → List ℚ × D) :
    ℕ → List Vec32 → D → List ℚ × D
  | _, [], st => ([], st)
  | 0, _ :: _, st => ([], st)
  | fuel + 1, f :: fs, st =>
    let r := d ((f :: fs).take 15) st
    let r2 := decodeChunkedF d fuel ((f :: fs).drop 15) r.2
    (r.1 ++ r2.1, r2.2)

/-- `decodeLatents`' chunked decode: process the latent list in batches of
15 frames, threading the decoder state across batches and concatenating
the audio. -/
def decodeChunked {D : Type} (d : List Vec32 → D → List ℚ × D)
    (fs : List Vec32) (st : D) : List ℚ × D :=
  decodeChunkedF d fs.length fs st

lemma decodeChunkedF_irrel {D : Type} (d : List Vec32 → D → List ℚ × D) :
    ∀ (n : ℕ) (fs : List Vec32), fs.length ≤ n → ∀ (m : ℕ), fs.length ≤ m →
      ∀ st : D, decodeChunkedF d n fs st = decodeChunkedF d m fs st := by
  intro n
  induction n with
  | zero =>
    intro fs h m hm st
    have : fs = [] := List.length_eq_zero.mp (Nat.le_zero.mp h)
    subst this
    cases m <;> rfl
  | succ n ih =>
    intro fs h m hm st
    match fs, m with
    | [], m2 => cases m2 <;> rfl
    | f :: fs', 0 => simp at hm
    | f :: fs', m' + 1 =>
      simp only [decodeChunkedF]
      rw [ih ((f :: fs').drop 15)
        (by simp only [List.length_drop, List.length_cons]
            simp only [List.length_cons] at h
            omega)
        m'
        (by simp only [List.length_drop, List.length_cons]
            simp only [List.length_cons] at hm
            omega)]

/-- One-step unfolding of `decodeChunked` on a nonempty list. -/
lemma decodeChunked_cons {D : Type} (d : List Vec32 → D → List ℚ × D)
    (f : Vec32) (fs : List Vec32) (st : D) :
    decodeChunked d (f :: fs) st =
      ((d ((f :: fs).take 15) st).1 ++
        (decodeChunked d ((f :: fs).drop 15) (d ((f :: fs).take 15) st).2).1,
       (decodeChunked d ((f :: fs).drop 15) (d ((f :: fs).take 15) st).2).2) := by
  show decodeChunkedF d (fs.length + 1) (f :: fs) st = _
  simp only [decodeChunkedF]
  rw [decodeChunkedF_irrel d fs.length ((f :: fs).drop 15)
    (by simp only [List.length_drop, List.length_cons]; omega)
    ((f :: fs).drop 15).length le_rfl]
  rfl

/-- `PocketTTS::Impl::decodeLatents`: empty input yields empty audio;
otherwise decode all latents in 15-frame batches from a freshly
initialized decoder state. -/
def decodeLatents {D : Type} (d : List Vec32 → D → List ℚ × D) (dInit : D)
    (lat : List Vec32) : List ℚ :=
  match lat with
  | [] => []
  | f :: fs => (decodeChunked d (f :: fs) dInit).1

/-- Full batch waveform of `generate`: decode the produced latent
sequence. -/
def generateB {L D : Type} (U : Units L D) (cfg : TTSConfig)
    (vCtx tCtx : Ctx) (noise : ℕ → Vec32) : List ℚ :=
  decodeLatents U.decode U.decInit (runGenerate U cfg vCtx tCtx noise).lat

/-- Fuel-indexed version of the unthreaded residual decode (`fuel =
length` suffices; the fuel only makes the recursion structural). -/
def decodeFinalNTF {D : Type} (d : List Vec32 → D → List ℚ × D) :
    ℕ → List Vec32 → D → List ℚ
  | _, [], _ => []
  | 0, _ :: _, _ => []
  | fuel + 1, f :: fs, st =>
    (d ((f :: fs).take 15) st).1 ++ decodeFinalNTF d fuel ((f :: fs).drop 15) st

/-- The post-loop residual flush of `generateStreaming` decodes the
pending latents in 15-frame sub-batches, but — unlike the mid-loop flush —
never writes the decoder outputs back into `decoderState`: every sub-batch
is fed the same (stale) state.  The audio of all sub-batches is
concatenated. -/
def decodeFinalNT {D : Type} (d : List Vec32 → D → List ℚ × D)
    (fs : List Vec32) (st : D) : List ℚ :=
  decodeFinalNTF d fs.length fs st

/-- The mutable state of the `generateStreaming` loop: the generation
fields (`lm`, `cur`, `eos`) as in `GenSt`, the streaming decoder state,
`pendingLatents`, the delivered callback events (samples, `isFinal`) in
order, and `totalSamples`.  `lat` (every latent appended so far, i.e. the
concatenation of all flushed chunks plus `pending`), `flushedLat` (the
latents whose decoded audio has been delivered) and `cancelled` (whether
the loop exited through the cancellation break) are ghost observers that
the C++ code does not store but that are functions of the run. -/
structure StreamSt (L D : Type) : Type where
  lm : L
  cur : SeqIn
  eos : Option ℕ
  dec : D
  pending : List Vec32
  trace : List (List ℚ × Bool)
  total : ℕ
  lat : List Vec32
  flushedLat : List Vec32
  cancelled : Bool

/-- The autoregressive loop of `PocketTTS::generateStreaming`
(`for step < maxFrames`): check cancellation (only when
`enableCancellation`), run the main unit, update/check EOS, integrate the
next latent, append it to `pendingLatents`, and flush (decode in 15-frame
sub-batches threading the decoder state, deliver one callback carrying the
chunk audio and the `isFinal` flag, clear `pending`) once
`pending.size >= chunkSizeFrames` — the `||`-ed EOS-expiry disjunct of the
flush condition and of `isFinal` is kept verbatim from the source even
though the earlier `break` makes it unreachable. -/
def streamLoop {L D : Type} (U : Units L D) (cfg : TTSConfig) (sc : SConfig)
    (noise : ℕ → Vec32) (obs : ℕ → Bool) :
    ℕ → ℕ → StreamSt L D → StreamSt L D
  | 0, _, g => g
  | fuel + 1, step, g =>
    if sc.enableCancellation ∧ obs step then
      { g with cancelled := true }
    else
      let r := U.mainStep g.cur emptyCtx g.lm
      let eos2 := eosUpd r.2.1 g.eos step
      if stopNow eos2 step cfg.framesAfterEos then
        { g with lm := r.2.2, eos := eos2 }
      else
        let x := eulerCode U.flowDir cfg.lsdSteps r.1 (initVec cfg noise step)
        let pend := g.pending ++ [x]
        if sc.chunkSizeFrames ≤ (pend.length : ℤ) ∨
            stopNow eos2 step cfg.framesAfterEos then
          let a := decodeChunked U.decode pend g.dec
          let isFin := stopNow eos2 step cfg.framesAfterEos
          streamLoop U cfg sc noise obs fuel (step + 1)
            { lm := r.2.2, cur := SeqIn.frame x, eos := eos2, dec := a.2,
              pending := [], trace := g.trace ++ [(a.1, isFin)],
              total := g.total + a.1.length, lat := g.lat ++ [x],
              flushedLat := g.flushedLat ++ pend, cancelled := g.cancelled }
        else
          streamLoop U cfg sc noise obs fuel (step + 1)
            { lm := r.2.2, cur := SeqIn.frame x, eos := eos2, dec := g.dec,
              pending := pend, trace := g.trace, total := g.total,
              lat := g.lat ++ [x], flushedLat := g.flushedLat,
              cancelled := g.cancelled }

/-- Initial streaming state: conditioning passes into a freshly
initialized LM state, freshly initialized streaming decoder state,
NaN-sentinel current frame, nothing pending or delivered. -/
def streamInit {L D : Type} (U : Units L D) (vCtx tCtx : Ctx) : StreamSt L D :=
  { lm := condPasses U vCtx tCtx, cur := SeqIn.nanFrame, eos := none,
    dec := U.decInit, pending := [], trace := [], total := 0, lat := [],
    flushedLat := [], cancelled := false }

/-- `PocketTTS::generateStreaming`: run the loop, then — only when the
residual `pendingLatents` is nonempty AND the cancellation flag reads
false (`!impl_->cancelRequested`, checked regardless of
`enableCancellation`) — decode the residual without threading decoder
state (`decodeFinalNT`) and deliver it in one callback with
`isFinal = true`.  The C++ code does not clear `pendingLatents` after the
final flush, and neither does the model. -/
def streamRun {L D : Type} (U : Units L D) (cfg : TTSConfig) (sc : SConfig)
    (vCtx tCtx : Ctx) (noise : ℕ → Vec32) (obs : ℕ → Bool) (fin : Bool) :
    StreamSt L D :=
  let g := streamLoop U cfg sc noise obs cfg.maxFrames 0 (streamInit U vCtx tCtx)
  if g.pending ≠ [] ∧ fin = false then
    let a := decodeFinalNT U.decode g.pending g.dec
    { g with trace := g.trace ++ [(a, true)], total := g.total + a.length,
             flushedLat := g.flushedLat ++ g.pending }
  else g

/-! ### Basic lemmas about the batch loop -/

lemma eosUpd_some (l : ℚ) (e step : ℕ) : eosUpd l (some e) step = some e := by
  simp [eosUpd]

lemma genLoop_eos_some {L D : Type} (U : Units L D) (cfg : TTSConfig)
    (noise : ℕ → Vec32) :
    ∀ (fuel step : ℕ) (g : GenSt L) (e : ℕ), g.eos = some e →
      (genLoop U cfg noise fuel step g).eos = some e := by
  intro fuel
  induction fuel with
  | zero => intro step g e h; simpa [genLoop] using h
  | succ n ih =>
    intro step g e h
    rw [genLoop]
    simp only [h, eosUpd_some]
    split
    · exact h ▸ rfl
    · exact ih (step + 1) _ e rfl

/-- Once `eosStep` is recorded as `k`, the loop appends one frame per step
until the step counter reaches `k + framesAfterEos`, where it breaks
without appending; so the final latent count is `k + framesAfterEos`. -/
lemma genLoop_len_of_eos {L D : Type} (U : Units L D) (cfg : TTSConfig)
    (noise : ℕ → Vec32) (k : ℕ) :
    ∀ (fuel step : ℕ) (g : GenSt L), g.eos = some k →
      g.lat.length = step →
      (step : ℤ) ≤ (k : ℤ) + cfg.framesAfterEos →
      (k : ℤ) + cfg.framesAfterEos < (step : ℤ) + (fuel : ℤ) →
      ((genLoop U cfg noise fuel step g).lat.length : ℤ) =
        (k : ℤ) + cfg.framesAfterEos := by
  intro fuel
  induction fuel with
  | zero => intro step g _ _ hle hlt; omega
  | succ n ih =>
    intro step g heos hlen hle hlt
    rw [genLoop]
    simp only [heos, eosUpd_some]
    by_cases hstop : ((k : ℤ) + cfg.framesAfterEos ≤ (step : ℤ))
    · have : stopNow (some k) step cfg.framesAfterEos = true := by
        simp [stopNow, hstop]
      rw [if_pos this]
      simp only [hlen]
      omega
    · have hs : stopNow (some k) step cfg.framesAfterEos = false := by
        simp [stopNow]; omega
      rw [if_neg (by simp [hs])]
      apply ih (step + 1)
      · rfl
      · simp [hlen]
      · omega
      · omega

/-- From a state with no EOS recorded and `lat.length = step`, if the run
finishes with `eosStep = k` (necessarily the first step whose logit
exceeded the −4 threshold) and enough fuel remains, the final latent count
is `k + framesAfterEos`. -/
lemma genLoop_len_firstEos {L D : Type} (U : Units L D) (cfg : TTSConfig)
    (noise : ℕ → Vec32) (hf : 0 ≤ cfg.framesAfterEos) :
    ∀ (fuel step : ℕ) (g : GenSt L), g.eos = none → g.lat.length = step →
      ∀ k : ℕ, (genLoop U cfg noise fuel step g).eos = some k →
        (k : ℤ) + cfg.framesAfterEos < (step : ℤ) + (fuel : ℤ) →
        ((genLoop U cfg noise fuel step g).lat.length : ℤ) =
          (k : ℤ) + cfg.framesAfterEos := by
  intro fuel
  induction fuel with
  | zero =>
    intro step g hnone _ k hk _
    rw [genLoop] at hk
    rw [hnone] at hk
    exact absurd hk (by simp)
  | succ n ih =>
    intro step g hnone hlen k hk hlt
    rw [genLoop] at hk ⊢
    simp only [hnone] at hk ⊢
    by_cases hdet : (-4 : ℚ) < (U.mainStep g.cur emptyCtx g.lm).2.1
    · have he2 : eosUpd (U.mainStep g.cur emptyCtx g.lm).2.1 none step = some step := by
        simp [eosUpd, hdet]
      rw [he2] at hk ⊢
      by_cases hstop : ((step : ℤ) + cfg.framesAfterEos ≤ (step : ℤ))
      · have hst : stopNow (some step) step cfg.framesAfterEos = true := by
          simp [stopNow, hstop]
        rw [if_pos hst] at hk ⊢
        have hks : step = k := by simpa using hk
        simp only [hlen]
        omega
      · have hst : stopNow (some step) step cfg.framesAfterEos = false := by
          simp [stopNow]; omega
        rw [if_neg (by simp [hst])] at hk ⊢
        have hks : step = k := by
          have := genLoop_eos_some U cfg noise n (step + 1)
            { lm := (U.mainStep g.cur emptyCtx g.lm).2.2,
              cur := SeqIn.frame (eulerCode U.flowDir cfg.lsdSteps
                (U.mainStep g.cur emptyCtx g.lm).1 (initVec cfg noise step)),
              eos := some step,
              lat := g.lat ++ [eulerCode U.flowDir cfg.lsdSteps
                (U.mainStep g.cur emptyCtx g.lm).1 (initVec cfg noise step)] }
            step rfl
          rw [this] at hk
          simpa using hk
        apply genLoop_len_of_eos U cfg noise k n (step + 1)
        · simp [hks]
        · simp [hlen]
        · omega
        · omega
    · have he2 : eosUpd (U.mainStep g.cur emptyCtx g.lm).2.1 none step = none := by
        simp [eosUpd, hdet]
      rw [he2] at hk ⊢
      rw [if_neg (by simp [stopNow])] at hk ⊢
      apply ih (step + 1) _ rfl (by simp [hlen]) k hk
      omega

/-! ### Lockstep between the streaming loop and the batch loop -/

/-- Projection of a streaming-loop state onto the generation fields the
batch loop carries. -/
def projGen {L D : Type} (g : StreamSt L D) : GenSt L :=
  { lm := g.lm, cur := g.cur, eos := g.eos, lat := g.lat }

/-- When no cancellation break can fire, the streaming loop performs
exactly the batch loop's autoregressive steps: its generation fields
evolve in lockstep with `genLoop`. -/
lemma streamLoop_proj {L D : Type} (U : Units L D) (cfg : TTSConfig)
    (sc : SConfig) (noise : ℕ → Vec32) (obs : ℕ → Bool)
    (hnc : ∀ s, ¬(sc.enableCancellation = true ∧ obs s = true)) :
    ∀ (fuel step : ℕ) (g : StreamSt L D),
      projGen (streamLoop U cfg sc noise obs fuel step g) =
        genLoop U cfg noise fuel step (projGen g) := by
  intro fuel
  induction fuel with
  | zero => intro step g; rfl
  | succ n ih =>
    intro step g
    rw [streamLoop, genLoop]
    rw [if_neg (hnc step)]
    simp only [projGen]
    split
    · rfl
    · split
      · exact ih (step + 1) _
      · exact ih (step + 1) _

/-- The post-loop residual flush leaves `pendingLatents`, the generation
fields and the decoder state untouched: only the trace, the sample total
and the delivered-latents ghost change. -/
lemma streamRun_proj {L D : Type} (U : Units L D) (cfg : TTSConfig)
    (sc : SConfig) (vCtx tCtx : Ctx) (noise : ℕ → Vec32) (obs : ℕ → Bool)
    (fin : Bool) :
    (streamRun U cfg sc vCtx tCtx noise obs fin).lat =
      (streamLoop U cfg sc noise obs cfg.maxFrames 0 (streamInit U vCtx tCtx)).lat ∧
    (streamRun U cfg sc vCtx tCtx noise obs fin).pending =
      (streamLoop U cfg sc noise obs cfg.maxFrames 0 (streamInit U vCtx tCtx)).pending ∧
    (streamRun U cfg sc vCtx tCtx noise obs fin).dec =
      (streamLoop U cfg sc noise obs cfg.maxFrames 0 (streamInit U vCtx tCtx)).dec ∧
    (streamRun U cfg sc vCtx tCtx noise obs fin).cancelled =
      (streamLoop U cfg sc noise obs cfg.maxFrames 0 (streamInit U vCtx tCtx)).cancelled ∧
    (streamRun U cfg sc vCtx tCtx noise obs fin).eos =
      (streamLoop U cfg sc noise obs cfg.maxFrames 0 (streamInit U vCtx tCtx)).eos := by
  rw [streamRun]
  split <;> exact ⟨rfl, rfl, rfl, rfl, rfl⟩

/-! ### Claim C1 — EOS grace window -/

/-- Concrete instance whose main unit reports a stop-logit of `0 > -4` at
every step, so `eosStep` is recorded at step 0. -/
def unitsEos : Units Unit Unit :=
  { mainStep := fun _ _ _ => ([], 0, ())
    flowDir := fun _ _ _ x => x
    decode := fun _ _ => ([0], ())
    lmInit := ()
    decInit := () }

/-- Degenerate grace window: `framesAfterEos = 0`. -/
def cfgEos : TTSConfig :=
  { temperature := 0, lsdSteps := 1, maxFrames := 5, framesAfterEos := 0 }

/-- Grace window of 2 frames. -/
def cfgEosW : TTSConfig :=
  { temperature := 0, lsdSteps := 1, maxFrames := 5, framesAfterEos := 2 }

/-- Streaming configuration used by concrete runs. -/
def scW : SConfig := { chunkSizeFrames := 5, enableCancellation := false }

/-- Empty context placeholder for concrete runs. -/
def ctx0 : Ctx := ([], [])

/-- Zero noise oracle for concrete runs. -/
def noise0 : ℕ → Vec32 := fun _ => zeroVec32

/-- Claim C1 (corrected): when the stop-logit first exceeds −4.0 at step
`k` (recorded as `eosStep = k`) and `maxFrames` does not truncate earlier,
both the batch loop and the (uncancelled) streaming loop produce exactly
`k + framesAfterEos` latent frames — one per step `0, …,
k + framesAfterEos − 1`; the iteration at step `k + framesAfterEos` breaks
before appending, so the count is NOT `k + framesAfterEos + 1` as the
claim states. -/
theorem c1_eos_grace_window {L D : Type} (U : Units L D) (cfg : TTSConfig)
    (vCtx tCtx : Ctx) (noise : ℕ → Vec32) (sc : SConfig) (fin : Bool) (k : ℕ)
    (hf : 0 ≤ cfg.framesAfterEos)
    (hk : (runGenerate U cfg vCtx tCtx noise).eos = some k)
    (hmax : (k : ℤ) + cfg.framesAfterEos + 1 < (cfg.maxFrames : ℤ)) :
    ((runGenerate U cfg vCtx tCtx noise).lat.length : ℤ)
        = (k : ℤ) + cfg.framesAfterEos
    ∧ ((streamRun U cfg sc vCtx tCtx noise (fun _ => false) fin).lat.length : ℤ)
        = (k : ℤ) + cfg.framesAfterEos := by
  have h1 : ((runGenerate U cfg vCtx tCtx noise).lat.length : ℤ)
      = (k : ℤ) + cfg.framesAfterEos := by
    exact genLoop_len_firstEos U cfg noise hf cfg.maxFrames 0
      { lm := condPasses U vCtx tCtx, cur := SeqIn.nanFrame, eos := none,
        lat := [] } rfl rfl k hk (by omega)
  refine ⟨h1, ?_⟩
  have hp := (streamRun_proj U cfg sc vCtx tCtx noise (fun _ => false) fin).1
  rw [hp]
  have hproj := streamLoop_proj U cfg sc noise (fun _ => false)
    (by intro s h; exact absurd h.2 (by simp)) cfg.maxFrames 0
    (streamInit U vCtx tCtx)
  have hlat : (streamLoop U cfg sc noise (fun _ => false) cfg.maxFrames 0
      (streamInit U vCtx tCtx)).lat
      = (runGenerate U cfg vCtx tCtx noise).lat := by
    have := congrArg GenSt.lat hproj
    simpa [projGen, runGenerate, streamInit] using this
  rw [hlat, h1]

/-- Claim C1 as stated is false on the code: with `framesAfterEos = 0`,
`maxFrames = 5` and the stop-logit exceeding −4.0 already at step 0
(`eosStep = 0`), the loop produces 0 latent frames, not
`0 + 0 + 1 = 1`. -/
theorem c1_claim_counterexample :
    (runGenerate unitsEos cfgEos ctx0 ctx0 noise0).eos = some 0 ∧
    (0 : ℤ) + cfgEos.framesAfterEos + 1 < (cfgEos.maxFrames : ℤ) ∧
    ((runGenerate unitsEos cfgEos ctx0 ctx0 noise0).lat.length : ℤ) ≠
      (0 : ℤ) + cfgEos.framesAfterEos + 1 := by
  refine ⟨by decide, by decide, by decide⟩

/-- Witness: the corrected C1 at a concrete run — EOS first detected at
step 0 with `framesAfterEos = 2` and `maxFrames = 5` yields exactly 2
latent frames in both the batch and the streaming loop. -/
theorem c1_eos_grace_window_witness :
    (runGenerate unitsEos cfgEosW ctx0 ctx0 noise0).eos = some 0 ∧
    ((runGenerate unitsEos cfgEosW ctx0 ctx0 noise0).lat.length : ℤ) = 2 ∧
    ((streamRun unitsEos cfgEosW scW ctx0 ctx0 noise0 (fun _ => false)
      false).lat.length : ℤ) = 2 := by
  have h := c1_eos_grace_window unitsEos cfgEosW ctx0 ctx0 noise0 scW false 0
    (by decide) (by decide) (by decide)
  exact ⟨by decide, h.1, h.2⟩

/-! ### Claim C5 — determinism at temperature zero -/

/-- At `temperature = 0` the `if (config.temperature > 0)` guard fails and
the step vector stays the value-initialized zero vector. -/
lemma initVec_zero (cfg : TTSConfig) (hT : cfg.temperature = 0)
    (noise : ℕ → Vec32) (step : ℕ) : initVec cfg noise step = zeroVec32 := by
  rw [initVec, hT, if_neg (lt_irrefl (0 : ℚ))]

/-- At `temperature = 0` the noise oracle is never consulted. -/
lemma genLoop_noise_irrel {L D : Type} (U : Units L D) (cfg : TTSConfig)
    (hT : cfg.temperature = 0) (n1 n2 : ℕ → Vec32) :
    ∀ (fuel step : ℕ) (g : GenSt L),
      genLoop U cfg n1 fuel step g = genLoop U cfg n2 fuel step g := by
  intro fuel
  induction fuel with
  | zero => intro step g; rfl
  | succ n ih =>
    intro step g
    rw [genLoop, genLoop]
    split
    · rfl
    · simp only [initVec_zero cfg hT n1, initVec_zero cfg hT n2]
      exact ih (step + 1) _

/-- Claim C5 (confirmed): with `temperature = 0` and every inference unit
a pure function of its named inputs, two `generate` calls with identical
text, voice and configuration produce identical latent sequences and
identical waveforms regardless of the RNG draws (`n1`, `n2`) — the RNG is
never consulted. -/
theorem c5_determinism {L D : Type} (U : Units L D) (cfg : TTSConfig)
    (vCtx tCtx : Ctx) (n1 n2 : ℕ → Vec32) (hT : cfg.temperature = 0) :
    (runGenerate U cfg vCtx tCtx n1).lat = (runGenerate U cfg vCtx tCtx n2).lat
    ∧ generateB U cfg vCtx tCtx n1 = generateB U cfg vCtx tCtx n2 := by
  have h : runGenerate U cfg vCtx tCtx n1 = runGenerate U cfg vCtx tCtx n2 := by
    rw [runGenerate, runGenerate, genLoop_noise_irrel U cfg hT n1 n2]
  exact ⟨by rw [h], by rw [generateB, generateB, h]⟩

/-- A nonzero noise oracle, used to witness that determinism does not
depend on the draws. -/
def noiseOne : ℕ → Vec32 := fun _ => List.replicate 32 1

/-- Witness: C5 applied at a concrete zero-temperature run with two
different noise oracles. -/
theorem c5_determinism_witness :
    cfgEosW.temperature = 0 ∧
    generateB unitsEos cfgEosW ctx0 ctx0 noise0
      = generateB unitsEos cfgEosW ctx0 ctx0 noiseOne := by
  exact ⟨rfl, (c5_determinism unitsEos cfgEosW ctx0 ctx0 noise0 noiseOne rfl).2⟩

/-! ### Claim C7 — flow matching by explicit Euler integration -/

/-- Modelled from the spec's own wording of the integration scheme (for
comparison with the code's `eulerCode`): integrate `lsdSteps` equal-width
Euler steps over the unit interval, computing at sub-step `j` the
boundaries `s = j/lsdSteps`, `t = s + 1/lsdSteps` inline, calling the
stateless flow unit on `(conditioning, s, t, x)` and advancing
`x += direction * (1/lsdSteps)`. -/
def eulerSpec (flow : List ℚ → ℚ → ℚ → Vec32 → Vec32) (L : ℕ)
    (cond : List ℚ) (x0 : Vec32) : Vec32 :=
  (List.range L).foldl
    (fun (x : Vec32) (j : ℕ) =>
      List.zipWith (fun xk dk => xk + dk * (1 / (L : ℚ))) x
        (flow cond ((j : ℚ) / (L : ℚ)) ((j : ℚ) / (L : ℚ) + 1 / (L : ℚ)) x)) x0

/-- The code's integration over the precomputed `(s, t)` buffers equals
the spec-side inline computation. -/
lemma eulerCode_eq_spec (flow : List ℚ → ℚ → ℚ → Vec32 → Vec32) (L : ℕ)
    (cond : List ℚ) (x0 : Vec32) :
    eulerCode flow L cond x0 = eulerSpec flow L cond x0 := by
  rw [eulerCode, eulerSpec, stBuffers, List.foldl_map]
  rfl

/-- Every latent the batch loop appends at step `i` has the Euler form:
it is `eulerCode` applied to that step's conditioning vector and to the
step's initial vector (`initVec cfg noise i`). -/
lemma genLoop_lat_euler {L D : Type} (U : Units L D) (cfg : TTSConfig)
    (noise : ℕ → Vec32) :
    ∀ (fuel step : ℕ) (g : GenSt L), g.lat.length = step →
      (∀ (i : ℕ) (v : Vec32), g.lat[i]? = some v →
        ∃ c, v = eulerCode U.flowDir cfg.lsdSteps c (initVec cfg noise i)) →
      ∀ (i : ℕ) (v : Vec32),
        (genLoop U cfg noise fuel step g).lat[i]? = some v →
          ∃ c, v = eulerCode U.flowDir cfg.lsdSteps c (initVec cfg noise i) := by
  intro fuel
  induction fuel with
  | zero => intro step g _ hbase i v hv; exact hbase i v hv
  | succ n ih =>
    intro step g hlen hbase i v hv
    rw [genLoop] at hv
    split at hv
    · exact hbase i v hv
    · refine ih (step + 1) _ (by simp [hlen]) ?_ i v hv
      intro j w hw
      rcases Nat.lt_trichotomy j g.lat.length with hj | hj | hj
      · rw [List.getElem?_append_left hj] at hw
        exact hbase j w hw
      · subst hj
        rw [List.getElem?_concat_length] at hw
        refine ⟨(U.mainStep g.cur emptyCtx g.lm).1, ?_⟩
        rw [← Option.some_inj.mp hw, hlen]
      · rw [List.getElem?_eq_none (by simp; omega)] at hw
        exact absurd hw (by simp)

/-- Claim C7 (confirmed): the precomputed sub-step boundary buffer has one
entry `(j/lsdSteps, j/lsdSteps + 1/lsdSteps)` per sub-step and is reused
for every frame (it is a pure function of `lsdSteps` alone); at
`temperature = 0` the starting vector of every step is identically zero
(otherwise it is that step's 32-wide Gaussian draw, modelled by the
`noise` oracle); the code's integration equals the spec's `lsdSteps`
explicit-Euler sub-steps; and every latent produced at step `i` of a run
arises as this integration from `initVec cfg noise i`. -/
theorem c7_flow_integration {L D : Type} (U : Units L D) (cfg : TTSConfig)
    (vCtx tCtx : Ctx) (noise : ℕ → Vec32) :
    ((stBuffers cfg.lsdSteps).length = cfg.lsdSteps
      ∧ ∀ j : ℕ, j < cfg.lsdSteps →
          (stBuffers cfg.lsdSteps)[j]? =
            some ((j : ℚ) / (cfg.lsdSteps : ℚ),
              (j : ℚ) / (cfg.lsdSteps : ℚ) + 1 / (cfg.lsdSteps : ℚ)))
    ∧ (cfg.temperature = 0 → ∀ step, initVec cfg noise step = zeroVec32)
    ∧ (∀ (cond : List ℚ) (x0 : Vec32),
        eulerCode U.flowDir cfg.lsdSteps cond x0
          = eulerSpec U.flowDir cfg.lsdSteps cond x0)
    ∧ (∀ (i : ℕ) (v : Vec32),
        (runGenerate U cfg vCtx tCtx noise).lat[i]? = some v →
          ∃ c, v = eulerCode U.flowDir cfg.lsdSteps c (initVec cfg noise i)) := by
  refine ⟨⟨by rw [stBuffers, List.length_map, List.length_range], ?_⟩, ?_, ?_, ?_⟩
  · intro j hj
    rw [stBuffers, List.getElem?_map, List.getElem?_range hj]
    rfl
  · intro hT step
    exact initVec_zero cfg hT noise step
  · exact eulerCode_eq_spec U.flowDir cfg.lsdSteps
  · exact genLoop_lat_euler U cfg noise cfg.maxFrames 0
      { lm := condPasses U vCtx tCtx, cur := SeqIn.nanFrame, eos := none,
        lat := [] } rfl (by intro i v hv; simp at hv)

/-- Witness: C7's clauses at a concrete configuration. -/
theorem c7_flow_integration_witness :
    (stBuffers cfgEosW.lsdSteps).length = cfgEosW.lsdSteps ∧
    initVec cfgEosW noise0 5 = zeroVec32 ∧
    eulerCode unitsEos.flowDir cfgEosW.lsdSteps [] zeroVec32
      = eulerSpec unitsEos.flowDir cfgEosW.lsdSteps [] zeroVec32 := by
  have h := c7_flow_integration unitsEos cfgEosW ctx0 ctx0 noise0
  exact ⟨h.1.1, h.2.1 rfl 5, h.2.2.1 [] zeroVec32⟩

/-! ### Decoder decomposition (for the streaming/batch comparison) -/

/-- Frame-by-frame decode fold: decode one frame at a time, threading the
decoder state and concatenating the audio. -/
def ffold {D : Type} (f : Vec32 → D → List ℚ × D) :
    List Vec32 → D → List ℚ × D
  | [], st => ([], st)
  | v :: vs, st =>
    let r := f v st
    let r2 := ffold f vs r.2
    (r.1 ++ r2.1, r2.2)

/-- A decoder unit is frame-local when one batched invocation equals the
frame-by-frame fold of a per-frame step function `f`.  This is the
streaming-consistency property of the actual `mimi_decoder` network that
the C++ core implicitly relies on; it is NOT guaranteed by the code for an
arbitrary pure unit. -/
def FrameLocal {D : Type} (d : List Vec32 → D → List ℚ × D)
    (f : Vec32 → D → List ℚ × D) : Prop :=
  ∀ fs st, d fs st = ffold f fs st

lemma ffold_append {D : Type} (f : Vec32 → D → List ℚ × D)
    (xs ys : List Vec32) (st : D) :
    ffold f (xs ++ ys) st =
      ((ffold f xs st).1 ++ (ffold f ys (ffold f xs st).2).1,
        (ffold f ys (ffold f xs st).2).2) := by
  induction xs generalizing st with
  | nil => simp [ffold]
  | cons v vs ih => simp [ffold, ih]

/-- For a frame-local decoder, the 15-frame chunked decode with threaded
state equals the frame-by-frame fold. -/
lemma decodeChunked_eq_ffold {D : Type} (d : List Vec32 → D → List ℚ × D)
    (f : Vec32 → D → List ℚ × D) (hfl : FrameLocal d f) :
    ∀ (fs : List Vec32) (st : D), decodeChunked d fs st = ffold f fs st := by
  have main : ∀ (n : ℕ) (fs : List Vec32), fs.length ≤ n → ∀ st : D,
      decodeChunked d fs st = ffold f fs st := by
    intro n
    induction n with
    | zero =>
      intro fs hf st
      have : fs = [] := List.length_eq_zero.mp (Nat.le_zero.mp hf)
      subst this
      simp [decodeChunked, decodeChunkedF, ffold]
    | succ n ih =>
      intro fs hf st
      match fs with
      | [] => simp [decodeChunked, decodeChunkedF, ffold]
      | v :: vs =>
        rw [decodeChunked_cons, hfl]
        rw [ih ((v :: vs).drop 15)
          (by simp only [List.length_drop, List.length_cons]
              simp only [List.length_cons] at hf
              omega)]
        conv_rhs => rw [← List.take_append_drop 15 (v :: vs)]
        rw [ffold_append]
  intro fs st
  exact main fs.length fs le_rfl st

/-- For a frame-local decoder, `decodeLatents` is the frame-by-frame fold
from the freshly initialized decoder state. -/
lemma decodeLatents_eq_ffold {D : Type} (d : List Vec32 → D → List ℚ × D)
    (f : Vec32 → D → List ℚ × D) (hfl : FrameLocal d f) (dInit : D)
    (lat : List Vec32) :
    decodeLatents d dInit lat = (ffold f lat dInit).1 := by
  match lat with
  | [] => rfl
  | v :: vs => rw [decodeLatents, decodeChunked_eq_ffold d f hfl]

/-- A residual of at most 15 frames is decoded by the unthreaded final
flush in a single sub-batch, so the missing state write-back is
unobservable there. -/
lemma decodeFinalNT_small {D : Type} (d : List Vec32 → D → List ℚ × D)
    (fs : List Vec32) (st : D) (h : fs.length ≤ 15) (hne : fs ≠ []) :
    decodeFinalNT d fs st = (d fs st).1 := by
  match fs with
  | v :: vs =>
    show decodeFinalNTF d (vs.length + 1) (v :: vs) st = _
    simp only [decodeFinalNTF]
    rw [List.take_of_length_le h, List.drop_of_length_le h]
    simp [decodeFinalNTF]

/-- Concatenated audio of a callback trace. -/
def traceAudio (tr : List (List ℚ × Bool)) : List ℚ :=
  (tr.map Prod.fst).flatten

lemma traceAudio_append (t1 t2 : List (List ℚ × Bool)) :
    traceAudio (t1 ++ t2) = traceAudio t1 ++ traceAudio t2 := by
  simp [traceAudio]


/-! ### Streaming-loop invariants -/

/-- The main-unit invocation of one streaming iteration. -/
def stepMain {L D : Type} (U : Units L D) (g : StreamSt L D) : List ℚ × ℚ × L :=
  U.mainStep g.cur emptyCtx g.lm

/-- The EOS record after one streaming iteration's update. -/
def stepEos {L D : Type} (U : Units L D) (g : StreamSt L D) (step : ℕ) :
    Option ℕ :=
  eosUpd (stepMain U g).2.1 g.eos step

/-- The latent integrated during one streaming iteration. -/
def stepX {L D : Type} (U : Units L D) (cfg : TTSConfig) (noise : ℕ → Vec32)
    (g : StreamSt L D) (step : ℕ) : Vec32 :=
  eulerCode U.flowDir cfg.lsdSteps (stepMain U g).1 (initVec cfg noise step)

/-- Successor state of a flushing iteration. -/
def flushSt {L D : Type} (U : Units L D) (cfg : TTSConfig) (noise : ℕ → Vec32)
    (g : StreamSt L D) (step : ℕ) : StreamSt L D :=
  { lm := (stepMain U g).2.2, cur := SeqIn.frame (stepX U cfg noise g step),
    eos := stepEos U g step,
    dec := (decodeChunked U.decode (g.pending ++ [stepX U cfg noise g step]) g.dec).2,
    pending := [],
    trace := g.trace ++
      [((decodeChunked U.decode (g.pending ++ [stepX U cfg noise g step]) g.dec).1,
        stopNow (stepEos U g step) step cfg.framesAfterEos)],
    total := g.total +
      (decodeChunked U.decode (g.pending ++ [stepX U cfg noise g step]) g.dec).1.length,
    lat := g.lat ++ [stepX U cfg noise g step],
    flushedLat := g.flushedLat ++ (g.pending ++ [stepX U cfg noise g step]),
    cancelled := g.cancelled }

/-- Successor state of a non-flushing iteration. -/
def noflushSt {L D : Type} (U : Units L D) (cfg : TTSConfig) (noise : ℕ → Vec32)
    (g : StreamSt L D) (step : ℕ) : StreamSt L D :=
  { lm := (stepMain U g).2.2, cur := SeqIn.frame (stepX U cfg noise g step),
    eos := stepEos U g step, dec := g.dec,
    pending := g.pending ++ [stepX U cfg noise g step],
    trace := g.trace, total := g.total,
    lat := g.lat ++ [stepX U cfg noise g step],
    flushedLat := g.flushedLat, cancelled := g.cancelled }

/-- Exhaustive case analysis of one streaming-loop iteration:
cancellation break, EOS-expiry break, flushing step, or plain step. -/
lemma streamLoop_succ_cases {L D : Type} (U : Units L D) (cfg : TTSConfig)
    (sc : SConfig) (noise : ℕ → Vec32) (obs : ℕ → Bool) (n step : ℕ)
    (g : StreamSt L D) :
    ((sc.enableCancellation = true ∧ obs step = true) ∧
      streamLoop U cfg sc noise obs (n + 1) step g = { g with cancelled := true }) ∨
    (¬(sc.enableCancellation = true ∧ obs step = true) ∧
      stopNow (stepEos U g step) step cfg.framesAfterEos = true ∧
      streamLoop U cfg sc noise obs (n + 1) step g =
        { g with lm := (stepMain U g).2.2, eos := stepEos U g step }) ∨
    (¬(sc.enableCancellation = true ∧ obs step = true) ∧
      stopNow (stepEos U g step) step cfg.framesAfterEos = false ∧
      sc.chunkSizeFrames ≤ ((g.pending ++ [stepX U cfg noise g step]).length : ℤ) ∧
      streamLoop U cfg sc noise obs (n + 1) step g =
        streamLoop U cfg sc noise obs n (step + 1) (flushSt U cfg noise g step)) ∨
    (¬(sc.enableCancellation = true ∧ obs step = true) ∧
      stopNow (stepEos U g step) step cfg.framesAfterEos = false ∧
      ¬(sc.chunkSizeFrames ≤ ((g.pending ++ [stepX U cfg noise g step]).length : ℤ)) ∧
      streamLoop U cfg sc noise obs (n + 1) step g =
        streamLoop U cfg sc noise obs n (step + 1) (noflushSt U cfg noise g step)) := by
  simp only [stepMain, stepEos, stepX, flushSt, noflushSt]
  rw [streamLoop]
  simp only []
  by_cases h1 : sc.enableCancellation = true ∧ obs step = true
  · exact Or.inl ⟨h1, by rw [if_pos h1]⟩
  · rw [if_neg h1]
    by_cases h2 : stopNow
        (eosUpd (U.mainStep g.cur emptyCtx g.lm).2.1 g.eos step) step
        cfg.framesAfterEos = true
    · exact Or.inr (Or.inl ⟨h1, h2, by rw [if_pos h2]⟩)
    · rw [if_neg h2]
      rw [Bool.not_eq_true] at h2
      by_cases h3 : sc.chunkSizeFrames ≤
          (((g.pending ++
            [eulerCode U.flowDir cfg.lsdSteps (U.mainStep g.cur emptyCtx g.lm).1
              (initVec cfg noise step)]).length : ℤ))
      · refine Or.inr (Or.inr (Or.inl ⟨h1, h2, h3, ?_⟩))
        rw [if_pos (Or.inl h3)]
      · refine Or.inr (Or.inr (Or.inr ⟨h1, h2, h3, ?_⟩))
        rw [if_neg (by rw [h2]; simpa using h3)]

/-- Every callback event the loop itself delivers carries
`isFinal = false`: the flush block only runs in iterations that survived
the EOS-expiry break, and its `isFinal` expression is exactly that break
condition. -/
lemma streamLoop_trace_false {L D : Type} (U : Units L D) (cfg : TTSConfig)
    (sc : SConfig) (noise : ℕ → Vec32) (obs : ℕ → Bool) :
    ∀ (fuel step : ℕ) (g : StreamSt L D), (∀ e ∈ g.trace, e.2 = false) →
      ∀ e ∈ (streamLoop U cfg sc noise obs fuel step g).trace, e.2 = false := by
  intro fuel
  induction fuel with
  | zero => intro step g h; exact h
  | succ n ih =>
    intro step g h
    rcases streamLoop_succ_cases U cfg sc noise obs n step g with
      ⟨_, heq⟩ | ⟨_, _, heq⟩ | ⟨_, hstop, _, heq⟩ | ⟨_, _, _, heq⟩
    · rw [heq]; exact h
    · rw [heq]; exact h
    · rw [heq]
      apply ih
      intro e he
      simp only [flushSt] at he
      rcases List.mem_append.mp he with he2 | he2
      · exact h e he2
      · rw [List.mem_singleton.mp he2]
        exact hstop
    · rw [heq]
      apply ih
      intro e he
      simp only [noflushSt] at he
      exact h e he

/-- The latents generated so far are the flushed (delivered) ones followed
by the pending ones. -/
lemma streamLoop_flushed_inv {L D : Type} (U : Units L D) (cfg : TTSConfig)
    (sc : SConfig) (noise : ℕ → Vec32) (obs : ℕ → Bool) :
    ∀ (fuel step : ℕ) (g : StreamSt L D),
      g.lat = g.flushedLat ++ g.pending →
      (streamLoop U cfg sc noise obs fuel step g).lat =
        (streamLoop U cfg sc noise obs fuel step g).flushedLat ++
          (streamLoop U cfg sc noise obs fuel step g).pending := by
  intro fuel
  induction fuel with
  | zero => intro step g h; exact h
  | succ n ih =>
    intro step g h
    rcases streamLoop_succ_cases U cfg sc noise obs n step g with
      ⟨_, heq⟩ | ⟨_, _, heq⟩ | ⟨_, _, _, heq⟩ | ⟨_, _, _, heq⟩
    · rw [heq]; exact h
    · rw [heq]; exact h
    · rw [heq]; exact ih _ _ (by simp [flushSt, h])
    · rw [heq]; exact ih _ _ (by simp [noflushSt, h])

/-- `pendingLatents` always stays strictly below
`max chunkSizeFrames 1`. -/
lemma streamLoop_pending_lt {L D : Type} (U : Units L D) (cfg : TTSConfig)
    (sc : SConfig) (noise : ℕ → Vec32) (obs : ℕ → Bool) :
    ∀ (fuel step : ℕ) (g : StreamSt L D),
      ((g.pending.length : ℤ) < max sc.chunkSizeFrames 1) →
      (((streamLoop U cfg sc noise obs fuel step g).pending.length : ℤ) <
        max sc.chunkSizeFrames 1) := by
  intro fuel
  induction fuel with
  | zero => intro step g h; exact h
  | succ n ih =>
    intro step g h
    rcases streamLoop_succ_cases U cfg sc noise obs n step g with
      ⟨_, heq⟩ | ⟨_, _, heq⟩ | ⟨_, _, _, heq⟩ | ⟨_, _, hng, heq⟩
    · rw [heq]; exact h
    · rw [heq]; exact h
    · rw [heq]
      apply ih
      simp only [flushSt, List.length_nil]
      omega
    · rw [heq]
      apply ih
      simp only [List.length_append, List.length_singleton] at hng
      simp only [noflushSt, List.length_append, List.length_singleton]
      push_cast at hng ⊢
      omega

/-- If the loop exits through the cancellation break, cancellation was
enabled and the observed flag was set at the step whose index equals the
number of latents appended so far (so that step appended no frame). -/
lemma streamLoop_cancelled_obs {L D : Type} (U : Units L D) (cfg : TTSConfig)
    (sc : SConfig) (noise : ℕ → Vec32) (obs : ℕ → Bool) :
    ∀ (fuel step : ℕ) (g : StreamSt L D), g.cancelled = false →
      g.lat.length = step →
      (streamLoop U cfg sc noise obs fuel step g).cancelled = true →
      sc.enableCancellation = true ∧
        obs ((streamLoop U cfg sc noise obs fuel step g).lat.length) = true := by
  intro fuel
  induction fuel with
  | zero =>
    intro step g hc hl hres
    rw [streamLoop] at hres
    rw [hc] at hres
    exact absurd hres (by simp)
  | succ n ih =>
    intro step g hc hl hres
    rcases streamLoop_succ_cases U cfg sc noise obs n step g with
      ⟨hcan, heq⟩ | ⟨_, _, heq⟩ | ⟨_, _, _, heq⟩ | ⟨_, _, _, heq⟩
    · rw [heq]
      exact ⟨hcan.1, hl ▸ hcan.2⟩
    · rw [heq] at hres
      rw [hc] at hres
      exact absurd hres (by simp)
    · rw [heq] at hres ⊢
      exact ih _ _ (by simpa [flushSt] using hc) (by simp [flushSt, hl]) hres
    · rw [heq] at hres ⊢
      exact ih _ _ (by simpa [noflushSt] using hc) (by simp [noflushSt, hl]) hres

/-- With cancellation disabled, the loop never consults the observed
flag. -/
lemma streamLoop_obs_irrel {L D : Type} (U : Units L D) (cfg : TTSConfig)
    (sc : SConfig) (noise : ℕ → Vec32) (hen : sc.enableCancellation = false)
    (obs1 obs2 : ℕ → Bool) :
    ∀ (fuel step : ℕ) (g : StreamSt L D),
      streamLoop U cfg sc noise obs1 fuel step g =
        streamLoop U cfg sc noise obs2 fuel step g := by
  intro fuel
  induction fuel with
  | zero => intro step g; rfl
  | succ n ih =>
    intro step g
    have hnc1 : ¬(sc.enableCancellation = true ∧ obs1 step = true) := by
      simp [hen]
    have hnc2 : ¬(sc.enableCancellation = true ∧ obs2 step = true) := by
      simp [hen]
    rcases streamLoop_succ_cases U cfg sc noise obs1 n step g with
      ⟨hcan, _⟩ | ⟨_, hstop, heq1⟩ | ⟨_, hstop, hg, heq1⟩ | ⟨_, hstop, hg, heq1⟩
    · exact absurd hcan hnc1
    · rcases streamLoop_succ_cases U cfg sc noise obs2 n step g with
        ⟨hcan2, _⟩ | ⟨_, _, heq2⟩ | ⟨_, hstop2, _, heq2⟩ | ⟨_, hstop2, _, heq2⟩
      · exact absurd hcan2 hnc2
      · rw [heq1, heq2]
      · simp [hstop] at hstop2
      · simp [hstop] at hstop2
    · rcases streamLoop_succ_cases U cfg sc noise obs2 n step g with
        ⟨hcan2, _⟩ | ⟨_, hstop2, heq2⟩ | ⟨_, _, _, heq2⟩ | ⟨_, _, hg2, heq2⟩
      · exact absurd hcan2 hnc2
      · simp [hstop] at hstop2
      · rw [heq1, heq2]
        exact ih _ _
      · exact absurd hg hg2
    · rcases streamLoop_succ_cases U cfg sc noise obs2 n step g with
        ⟨hcan2, _⟩ | ⟨_, hstop2, heq2⟩ | ⟨_, _, hg2, heq2⟩ | ⟨_, _, _, heq2⟩
      · exact absurd hcan2 hnc2
      · simp [hstop] at hstop2
      · exact absurd hg2 hg
      · rw [heq1, heq2]
        exact ih _ _

/-- `pendingLatents` holds exactly `lat.length mod chunkSizeFrames`
frames (for a positive chunk size): chunks are flushed exactly when the
pending buffer reaches the chunk size. -/
lemma streamLoop_pending_mod {L D : Type} (U : Units L D) (cfg : TTSConfig)
    (sc : SConfig) (noise : ℕ → Vec32) (obs : ℕ → Bool) (c : ℕ)
    (hc : (c : ℤ) = sc.chunkSizeFrames) (hpos : 0 < c) :
    ∀ (fuel step : ℕ) (g : StreamSt L D),
      g.pending.length = g.lat.length % c →
      (streamLoop U cfg sc noise obs fuel step g).pending.length =
        (streamLoop U cfg sc noise obs fuel step g).lat.length % c := by
  intro fuel
  induction fuel with
  | zero => intro step g h; exact h
  | succ n ih =>
    intro step g h
    have hmodlt : g.lat.length % c < c := Nat.mod_lt _ hpos
    rcases streamLoop_succ_cases U cfg sc noise obs n step g with
      ⟨_, heq⟩ | ⟨_, _, heq⟩ | ⟨_, _, hg, heq⟩ | ⟨_, _, hng, heq⟩
    · rw [heq]; exact h
    · rw [heq]; exact h
    · rw [heq]
      apply ih
      simp only [flushSt, List.length_nil, List.length_append,
        List.length_singleton]
      simp only [List.length_append, List.length_singleton] at hg
      have hge : c ≤ g.pending.length + 1 := by
        rw [← hc] at hg
        exact_mod_cast hg
      have heq2 : g.pending.length + 1 = c := by omega
      by_cases hc1 : c = 1
      · simp [hc1, Nat.mod_one]
      · have h1c : 1 % c = 1 := Nat.mod_eq_of_lt (by omega)
        calc (0 : ℕ) = c % c := (Nat.mod_self c).symm
          _ = (g.pending.length + 1) % c := by rw [heq2]
          _ = (g.lat.length % c + 1 % c) % c := by rw [← h, h1c]
          _ = (g.lat.length + 1) % c := (Nat.add_mod _ _ _).symm
    · rw [heq]
      apply ih
      simp only [List.length_append, List.length_singleton] at hng
      have hlt2 : g.pending.length + 1 < c := by
        rw [← hc] at hng
        omega
      simp only [noflushSt, List.length_append, List.length_singleton]
      have h1c : 1 % c = 1 := Nat.mod_eq_of_lt (by omega)
      calc g.pending.length + 1
          = (g.lat.length % c + 1 % c) % c := by
            rw [← h, h1c]
            exact (Nat.mod_eq_of_lt (by omega)).symm
        _ = (g.lat.length + 1) % c := (Nat.add_mod _ _ _).symm

/-! ### Claim C2 — streaming/batch equivalence -/

/-- For a frame-local decoder and no cancellation break, the streaming
loop's delivered audio, sample total and decoder state are those of the
frame-by-frame fold over the flushed latents. -/
lemma streamLoop_audio {L D : Type} (U : Units L D) (cfg : TTSConfig)
    (sc : SConfig) (noise : ℕ → Vec32) (obs : ℕ → Bool)
    (fpf : Vec32 → D → List ℚ × D) (hfl : FrameLocal U.decode fpf)
    (hnc : ∀ s, ¬(sc.enableCancellation = true ∧ obs s = true)) :
    ∀ (fuel step : ℕ) (g : StreamSt L D) (fl : List Vec32),
      g.lat = fl ++ g.pending →
      g.dec = (ffold fpf fl U.decInit).2 →
      traceAudio g.trace = (ffold fpf fl U.decInit).1 →
      g.total = (ffold fpf fl U.decInit).1.length →
      ∃ fl2,
        (streamLoop U cfg sc noise obs fuel step g).lat =
          fl2 ++ (streamLoop U cfg sc noise obs fuel step g).pending ∧
        (streamLoop U cfg sc noise obs fuel step g).dec =
          (ffold fpf fl2 U.decInit).2 ∧
        traceAudio (streamLoop U cfg sc noise obs fuel step g).trace =
          (ffold fpf fl2 U.decInit).1 ∧
        (streamLoop U cfg sc noise obs fuel step g).total =
          (ffold fpf fl2 U.decInit).1.length := by
  intro fuel
  induction fuel with
  | zero => intro step g fl h1 h2 h3 h4; exact ⟨fl, h1, h2, h3, h4⟩
  | succ n ih =>
    intro step g fl h1 h2 h3 h4
    rcases streamLoop_succ_cases U cfg sc noise obs n step g with
      ⟨hcan, _⟩ | ⟨_, _, heq⟩ | ⟨_, _, _, heq⟩ | ⟨_, _, _, heq⟩
    · exact absurd hcan (hnc step)
    · rw [heq]; exact ⟨fl, h1, h2, h3, h4⟩
    · rw [heq]
      apply ih (step + 1) _ (fl ++ (g.pending ++ [stepX U cfg noise g step]))
      · simp [flushSt, h1]
      · simp only [flushSt]
        rw [decodeChunked_eq_ffold U.decode fpf hfl, h2]
        simp [ffold_append]
      · simp only [flushSt]
        rw [traceAudio_append, h3, decodeChunked_eq_ffold U.decode fpf hfl, h2]
        simp [traceAudio, ffold_append]
      · simp only [flushSt]
        rw [h4, decodeChunked_eq_ffold U.decode fpf hfl, h2]
        simp [ffold_append]
    · rw [heq]
      apply ih (step + 1) _ fl
      · simp [noflushSt, h1]
      · simpa [noflushSt] using h2
      · simpa [noflushSt] using h3
      · simpa [noflushSt] using h4

/-- Claim C2 (corrected): streaming/batch equivalence holds under two
extra conditions the claim omits: the decode unit must be frame-local
(one batch invocation = state-threaded per-frame fold — an arbitrary pure
unit need not satisfy this, see the counterexample), and
`chunkSizeFrames ≤ 16` so that the residual flush (whose sub-batches are
NOT state-threaded in the code) spans at most one 15-frame sub-batch.
Then the streaming sample total equals the batch waveform length and the
concatenated chunks equal the batch waveform. -/
theorem c2_stream_batch_equiv {L D : Type} (U : Units L D) (cfg : TTSConfig)
    (sc : SConfig) (vCtx tCtx : Ctx) (noise : ℕ → Vec32)
    (fpf : Vec32 → D → List ℚ × D)
    (hT : cfg.temperature = 0)
    (hfl : FrameLocal U.decode fpf)
    (hchunk : sc.chunkSizeFrames ≤ 16) :
    (streamRun U cfg sc vCtx tCtx noise (fun _ => false) false).total
      = (generateB U cfg vCtx tCtx noise).length
    ∧ traceAudio (streamRun U cfg sc vCtx tCtx noise (fun _ => false) false).trace
      = generateB U cfg vCtx tCtx noise := by
  have hnc : ∀ s : ℕ, ¬(sc.enableCancellation = true ∧ (false : Bool) = true) := by
    intro s h
    exact absurd h.2 (by simp)
  obtain ⟨fl2, hl, hd, ht, htot⟩ :=
    streamLoop_audio U cfg sc noise (fun _ => false) fpf hfl hnc
      cfg.maxFrames 0 (streamInit U vCtx tCtx) [] rfl rfl rfl rfl
  have hlat : (streamLoop U cfg sc noise (fun _ => false) cfg.maxFrames 0
      (streamInit U vCtx tCtx)).lat = (runGenerate U cfg vCtx tCtx noise).lat := by
    have := congrArg GenSt.lat
      (streamLoop_proj U cfg sc noise (fun _ => false) hnc cfg.maxFrames 0
        (streamInit U vCtx tCtx))
    simpa [projGen, runGenerate, streamInit] using this
  have hgenB : generateB U cfg vCtx tCtx noise =
      (ffold fpf (runGenerate U cfg vCtx tCtx noise).lat U.decInit).1 := by
    rw [generateB, decodeLatents_eq_ffold U.decode fpf hfl]
  rw [streamRun]
  by_cases hp : (streamLoop U cfg sc noise (fun _ => false) cfg.maxFrames 0
      (streamInit U vCtx tCtx)).pending = []
  · rw [if_neg (by simp [hp])]
    have hfl2 : fl2 = (runGenerate U cfg vCtx tCtx noise).lat := by
      rw [← hlat, hl, hp, List.append_nil]
    rw [hgenB, ← hfl2]
    exact ⟨htot, ht⟩
  · rw [if_pos ⟨hp, rfl⟩]
    have hlen15 : (streamLoop U cfg sc noise (fun _ => false) cfg.maxFrames 0
        (streamInit U vCtx tCtx)).pending.length ≤ 15 := by
      have := streamLoop_pending_lt U cfg sc noise (fun _ => false)
        cfg.maxFrames 0 (streamInit U vCtx tCtx) (by simp [streamInit])
      omega
    rw [decodeFinalNT_small U.decode _ _ hlen15 hp, hfl, hd]
    have hsplit : (runGenerate U cfg vCtx tCtx noise).lat =
        fl2 ++ (streamLoop U cfg sc noise (fun _ => false) cfg.maxFrames 0
          (streamInit U vCtx tCtx)).pending := by
      rw [← hlat, hl]
    constructor
    · simp only [htot]
      rw [hgenB, hsplit, ffold_append]
      simp
    · rw [traceAudio_append, ht, hgenB, hsplit, ffold_append]
      simp [traceAudio]

/-- A concrete pure decoder that is not frame-local: every batched
invocation returns exactly one sample. -/
def unitsNoEos : Units Unit Unit :=
  { mainStep := fun _ _ _ => ([], -10, ())
    flowDir := fun _ _ _ x => x
    decode := fun _ _ => ([0], ())
    lmInit := ()
    decInit := () }

/-- Two frames, one flow sub-step, zero temperature. -/
def cfgC2 : TTSConfig :=
  { temperature := 0, lsdSteps := 1, maxFrames := 2, framesAfterEos := 3 }

/-- Chunk size 1: the streaming path decodes per frame. -/
def scC2 : SConfig := { chunkSizeFrames := 1, enableCancellation := false }

/-- Claim C2 as stated is false for a pure (but not frame-local) decode
unit: with 2 generated frames, chunk size 1 and temperature 0, streaming
delivers 2 samples over two decoder invocations while the batch path
decodes the 2 frames in one 15-frame batch yielding 1 sample. -/
theorem c2_claim_counterexample :
    cfgC2.temperature = 0 ∧
    (streamRun unitsNoEos cfgC2 scC2 ctx0 ctx0 noise0 (fun _ => false)
      false).total = 2 ∧
    (generateB unitsNoEos cfgC2 ctx0 ctx0 noise0).length = 1 := by
  refine ⟨rfl, by decide, by decide⟩

/-- A frame-local decoder: one sample `7` per frame, state unchanged. -/
def unitsFL : Units Unit Unit :=
  { mainStep := fun _ _ _ => ([], -10, ())
    flowDir := fun _ _ _ x => x
    decode := fun fs st => (List.replicate fs.length 7, st)
    lmInit := ()
    decInit := () }

/-- Per-frame step function of `unitsFL.decode`. -/
def fpfFL : Vec32 → Unit → List ℚ × Unit := fun _ st => ([7], st)

lemma unitsFL_frameLocal : FrameLocal unitsFL.decode fpfFL := by
  intro fs st
  induction fs with
  | nil => rfl
  | cons v vs ih =>
    simp only [ffold, fpfFL]
    rw [← ih]
    simp [unitsFL, List.replicate_succ]

/-- Three frames, chunk size 2 (so one mid-loop flush and one residual
frame). -/
def cfgFL : TTSConfig :=
  { temperature := 0, lsdSteps := 1, maxFrames := 3, framesAfterEos := 3 }

/-- Chunk size 2 streaming configuration. -/
def scFL : SConfig := { chunkSizeFrames := 2, enableCancellation := false }

/-- Witness: the corrected C2 at a concrete frame-local run. -/
theorem c2_stream_batch_equiv_witness :
    FrameLocal unitsFL.decode fpfFL ∧
    scFL.chunkSizeFrames ≤ 16 ∧
    (streamRun unitsFL cfgFL scFL ctx0 ctx0 noise0 (fun _ => false)
      false).total = (generateB unitsFL cfgFL ctx0 ctx0 noise0).length ∧
    traceAudio (streamRun unitsFL cfgFL scFL ctx0 ctx0 noise0 (fun _ => false)
      false).trace = generateB unitsFL cfgFL ctx0 ctx0 noise0 := by
  have h := c2_stream_batch_equiv unitsFL cfgFL scFL ctx0 ctx0 noise0 fpfFL
    rfl unitsFL_frameLocal (by decide)
  exact ⟨unitsFL_frameLocal, by decide, h.1, h.2⟩

/-! ### Claim C4 — cancellation vs. normal termination -/

/-- Claim C4 (confirmed).  With cancellation enabled and a monotone flag
(once observed set it stays set, and a set observation implies the
post-loop read `fin` is set): (1) a run that exits through the
cancellation break observed the flag at the step equal to its latent
count (so that step appended nothing), delivered only `isFinal = false`
events, and its pending buffer was never decoded or delivered (the
delivered latents `flushedLat` exclude `pending`); (2) a run with the
flag never set is not cancelled, and if it ends with a nonempty pending
buffer the buffer is decoded (unthreaded) and delivered as the single
last event with the final-chunk flag set, after which every latent has
been delivered. -/
theorem c4_cancellation_semantics {L D : Type} (U : Units L D)
    (cfg : TTSConfig) (sc : SConfig) (vCtx tCtx : Ctx) (noise : ℕ → Vec32)
    (obs : ℕ → Bool) (fin : Bool)
    (hen : sc.enableCancellation = true)
    (hmono : ∀ i j : ℕ, i ≤ j → obs i = true → obs j = true)
    (hlink : ∀ i : ℕ, obs i = true → fin = true) :
    ((streamRun U cfg sc vCtx tCtx noise obs fin).cancelled = true →
      obs ((streamRun U cfg sc vCtx tCtx noise obs fin).lat.length) = true ∧
      (∀ e ∈ (streamRun U cfg sc vCtx tCtx noise obs fin).trace, e.2 = false) ∧
      (streamRun U cfg sc vCtx tCtx noise obs fin).lat =
        (streamRun U cfg sc vCtx tCtx noise obs fin).flushedLat ++
          (streamRun U cfg sc vCtx tCtx noise obs fin).pending)
    ∧ ((∀ i, obs i = false) → fin = false →
      (streamRun U cfg sc vCtx tCtx noise obs fin).cancelled = false ∧
      ((streamRun U cfg sc vCtx tCtx noise obs fin).pending ≠ [] →
        (streamRun U cfg sc vCtx tCtx noise obs fin).trace.getLast? =
          some (decodeFinalNT U.decode
              (streamRun U cfg sc vCtx tCtx noise obs fin).pending
              (streamRun U cfg sc vCtx tCtx noise obs fin).dec, true) ∧
        (∀ e ∈ (streamRun U cfg sc vCtx tCtx noise obs fin).trace.dropLast,
          e.2 = false) ∧
        (streamRun U cfg sc vCtx tCtx noise obs fin).flushedLat =
          (streamRun U cfg sc vCtx tCtx noise obs fin).lat)) := by
  have hproj := streamRun_proj U cfg sc vCtx tCtx noise obs fin
  constructor
  · intro hcanc
    have hloopc : (streamLoop U cfg sc noise obs cfg.maxFrames 0
        (streamInit U vCtx tCtx)).cancelled = true := by
      rw [← hproj.2.2.2.1]
      exact hcanc
    have hco := streamLoop_cancelled_obs U cfg sc noise obs cfg.maxFrames 0
      (streamInit U vCtx tCtx) rfl rfl hloopc
    have hfin : fin = true := hlink _ hco.2
    have hrun : streamRun U cfg sc vCtx tCtx noise obs fin =
        streamLoop U cfg sc noise obs cfg.maxFrames 0 (streamInit U vCtx tCtx) := by
      rw [streamRun]
      rw [if_neg (by simp [hfin])]
    refine ⟨?_, ?_, ?_⟩
    · rw [hrun]
      exact hco.2
    · rw [hrun]
      exact streamLoop_trace_false U cfg sc noise obs cfg.maxFrames 0 _
        (by simp [streamInit])
    · rw [hrun]
      exact streamLoop_flushed_inv U cfg sc noise obs cfg.maxFrames 0 _
        (by simp [streamInit])
  · intro hobs hfin
    have hcanc : (streamLoop U cfg sc noise obs cfg.maxFrames 0
        (streamInit U vCtx tCtx)).cancelled = false := by
      rcases Bool.eq_false_or_eq_true ((streamLoop U cfg sc noise obs
        cfg.maxFrames 0 (streamInit U vCtx tCtx)).cancelled) with h | h
      · have := streamLoop_cancelled_obs U cfg sc noise obs cfg.maxFrames 0
          (streamInit U vCtx tCtx) rfl rfl h
        rw [hobs _] at this
        exact absurd this.2 (by simp)
      · exact h
    refine ⟨by rw [hproj.2.2.2.1]; exact hcanc, ?_⟩
    intro hpend
    have hpl : (streamLoop U cfg sc noise obs cfg.maxFrames 0
        (streamInit U vCtx tCtx)).pending ≠ [] := by
      rw [← hproj.2.1]
      exact hpend
    have hall := streamLoop_trace_false U cfg sc noise obs cfg.maxFrames 0
      (streamInit U vCtx tCtx) (by simp [streamInit])
    have hfi := streamLoop_flushed_inv U cfg sc noise obs cfg.maxFrames 0
      (streamInit U vCtx tCtx) (by simp [streamInit])
    rw [streamRun]
    rw [if_pos ⟨hpl, hfin⟩]
    refine ⟨?_, ?_, ?_⟩
    · simp only [List.getLast?_concat]
    · intro e he
      rw [List.dropLast_concat] at he
      exact hall e he
    · simp only []
      rw [hfi]


/-- No-EOS configuration for cancellation scenarios. -/
def cfgNoEos : TTSConfig :=
  { temperature := 0, lsdSteps := 1, maxFrames := 5, framesAfterEos := 3 }

/-- Streaming configuration with cancellation enabled. -/
def scC : SConfig := { chunkSizeFrames := 5, enableCancellation := true }

/-- Flag observations: set from step 1 on (monotone). -/
def obsC : ℕ → Bool := fun i => decide (1 ≤ i)

/-- Witness: C4 at a concrete cancelled run (flag observed set at step 1,
so exactly one latent was appended and nothing further is delivered). -/
theorem c4_cancellation_semantics_witness :
    (streamRun unitsNoEos cfgNoEos scC ctx0 ctx0 noise0 obsC true).cancelled
        = true ∧
    obsC ((streamRun unitsNoEos cfgNoEos scC ctx0 ctx0 noise0 obsC
      true).lat.length) = true ∧
    (∀ e ∈ (streamRun unitsNoEos cfgNoEos scC ctx0 ctx0 noise0 obsC
      true).trace, e.2 = false) ∧
    (streamRun unitsNoEos cfgNoEos scC ctx0 ctx0 noise0 obsC true).lat =
      (streamRun unitsNoEos cfgNoEos scC ctx0 ctx0 noise0 obsC
        true).flushedLat ++
      (streamRun unitsNoEos cfgNoEos scC ctx0 ctx0 noise0 obsC true).pending := by
  have h := c4_cancellation_semantics unitsNoEos cfgNoEos scC ctx0 ctx0 noise0
    obsC true rfl
    (by intro i j hij hi
        simp only [obsC, decide_eq_true_eq] at hi ⊢
        omega)
    (fun _ _ => rfl)
  have hc : (streamRun unitsNoEos cfgNoEos scC ctx0 ctx0 noise0 obsC
      true).cancelled = true := by decide
  obtain ⟨h1, h2, h3⟩ := h.1 hc
  exact ⟨hc, h1, h2, h3⟩

/-! ### Claim C9 — the final-chunk flag -/

/-- Claim C9 (confirmed): every event except possibly the last carries
`isFinal = false`; an event with `isFinal = true` can only be the last
one, namely the post-loop residual flush of the pending buffer; and in an
uncancelled run whose latent count is a positive exact multiple of a
positive `chunkSizeFrames`, no event at all carries the final flag (the
pending buffer is empty at loop exit, so the residual flush is skipped). -/
theorem c9_final_flag {L D : Type} (U : Units L D) (cfg : TTSConfig)
    (sc : SConfig) (vCtx tCtx : Ctx) (noise : ℕ → Vec32) (obs : ℕ → Bool)
    (fin : Bool) :
    (∀ e ∈ (streamRun U cfg sc vCtx tCtx noise obs fin).trace.dropLast,
      e.2 = false)
    ∧ (∀ e ∈ (streamRun U cfg sc vCtx tCtx noise obs fin).trace,
        e.2 = true →
          (streamRun U cfg sc vCtx tCtx noise obs fin).trace.getLast? = some e)
    ∧ ((∀ i, obs i = false) → fin = false → 0 < sc.chunkSizeFrames →
        (∀ m : ℤ, 0 < m →
          ((streamRun U cfg sc vCtx tCtx noise obs fin).lat.length : ℤ)
            = m * sc.chunkSizeFrames →
          ∀ e ∈ (streamRun U cfg sc vCtx tCtx noise obs fin).trace,
            e.2 = false)) := by
  have hall := streamLoop_trace_false U cfg sc noise obs cfg.maxFrames 0
    (streamInit U vCtx tCtx) (by simp [streamInit])
  have hproj := streamRun_proj U cfg sc vCtx tCtx noise obs fin
  refine ⟨?_, ?_, ?_⟩
  · rw [streamRun]
    split
    · intro e he
      rw [List.dropLast_concat] at he
      exact hall e he
    · intro e he
      exact hall e (List.dropLast_subset _ he)
  · rw [streamRun]
    split
    · intro e he htrue
      rcases List.mem_append.mp he with he2 | he2
      · exact absurd htrue (by rw [hall e he2]; simp)
      · rw [List.mem_singleton.mp he2]
        simp [List.getLast?_concat]
    · intro e he htrue
      exact absurd htrue (by rw [hall e he]; simp)
  · intro hobs hfin hcpos m hm hmul
    have hc : ((sc.chunkSizeFrames.toNat : ℤ)) = sc.chunkSizeFrames :=
      Int.toNat_of_nonneg (le_of_lt hcpos)
    have hcpos2 : 0 < sc.chunkSizeFrames.toNat := by omega
    have hmod := streamLoop_pending_mod U cfg sc noise obs
      sc.chunkSizeFrames.toNat hc hcpos2 cfg.maxFrames 0
      (streamInit U vCtx tCtx) (by simp [streamInit])
    have hdvd : sc.chunkSizeFrames.toNat ∣
        (streamLoop U cfg sc noise obs cfg.maxFrames 0
          (streamInit U vCtx tCtx)).lat.length := by
      rw [← Int.natCast_dvd_natCast]
      rw [hproj.1] at hmul
      rw [hc, hmul]
      exact dvd_mul_left _ _
    have hpe : (streamLoop U cfg sc noise obs cfg.maxFrames 0
        (streamInit U vCtx tCtx)).pending = [] := by
      obtain ⟨k, hk⟩ := hdvd
      rw [← List.length_eq_zero, hmod, hk]
      exact Nat.mul_mod_right _ _
    rw [streamRun]
    rw [if_neg (by simp [hpe])]
    exact hall

/-- Witness: C9's multiple-of-chunk clause at a concrete run: 2 latent
frames, chunk size 2 — one mid-loop flush, empty residual, no final-flag
event anywhere. -/
theorem c9_final_flag_witness :
    ((streamRun unitsNoEos cfgC2 scFL ctx0 ctx0 noise0 (fun _ => false)
      false).lat.length : ℤ) = 1 * scFL.chunkSizeFrames ∧
    (∀ e ∈ (streamRun unitsNoEos cfgC2 scFL ctx0 ctx0 noise0 (fun _ => false)
      false).trace, e.2 = false) := by
  have h := c9_final_flag unitsNoEos cfgC2 scFL ctx0 ctx0 noise0
    (fun _ => false) false
  exact ⟨by decide,
    h.2.2 (fun _ => rfl) rfl (by decide) 1 (by decide) (by decide)⟩

/-! ### Claim C10 — disabled cancellation -/

/-- Claim C10 (confirmed): with `enableCancellation = false` the loop
never consults the flag (the whole run is independent of the observed
per-step values), so `cancelStreaming` cannot shorten the autoregressive
run; yet the post-loop flush still reads the raw flag, so a flag set
during such a run (`fin = true`) suppresses the residual flush — the
pending latents and the final-chunk callback are silently dropped
relative to the `fin = false` run. -/
theorem c10_disabled_cancellation {L D : Type} (U : Units L D)
    (cfg : TTSConfig) (sc : SConfig) (vCtx tCtx : Ctx) (noise : ℕ → Vec32)
    (hen : sc.enableCancellation = false) :
    (∀ (obs1 obs2 : ℕ → Bool) (fin : Bool),
      streamRun U cfg sc vCtx tCtx noise obs1 fin =
        streamRun U cfg sc vCtx tCtx noise obs2 fin)
    ∧ (∀ obs : ℕ → Bool,
        (streamRun U cfg sc vCtx tCtx noise obs true).lat =
          (streamRun U cfg sc vCtx tCtx noise obs false).lat ∧
        (streamRun U cfg sc vCtx tCtx noise obs true).cancelled = false ∧
        ((streamRun U cfg sc vCtx tCtx noise obs true).pending ≠ [] →
          (∀ e ∈ (streamRun U cfg sc vCtx tCtx noise obs true).trace,
            e.2 = false) ∧
          (streamRun U cfg sc vCtx tCtx noise obs false).trace =
            (streamRun U cfg sc vCtx tCtx noise obs true).trace ++
              [(decodeFinalNT U.decode
                  (streamRun U cfg sc vCtx tCtx noise obs true).pending
                  (streamRun U cfg sc vCtx tCtx noise obs true).dec, true)])) := by
  constructor
  · intro obs1 obs2 fin
    rw [streamRun, streamRun,
      streamLoop_obs_irrel U cfg sc noise hen obs1 obs2]
  · intro obs
    have hall := streamLoop_trace_false U cfg sc noise obs cfg.maxFrames 0
      (streamInit U vCtx tCtx) (by simp [streamInit])
    have hrt : streamRun U cfg sc vCtx tCtx noise obs true =
        streamLoop U cfg sc noise obs cfg.maxFrames 0 (streamInit U vCtx tCtx) := by
      rw [streamRun]
      rw [if_neg (by simp)]
    have hcanc : (streamLoop U cfg sc noise obs cfg.maxFrames 0
        (streamInit U vCtx tCtx)).cancelled = false := by
      rcases Bool.eq_false_or_eq_true ((streamLoop U cfg sc noise obs
        cfg.maxFrames 0 (streamInit U vCtx tCtx)).cancelled) with h | h
      · have := streamLoop_cancelled_obs U cfg sc noise obs cfg.maxFrames 0
          (streamInit U vCtx tCtx) rfl rfl h
        rw [hen] at this
        exact absurd this.1 (by simp)
      · exact h
    refine ⟨?_, ?_, ?_⟩
    · rw [hrt]
      exact ((streamRun_proj U cfg sc vCtx tCtx noise obs false).1).symm
    · rw [hrt]
      exact hcanc
    · intro hpend
      rw [hrt] at hpend ⊢
      refine ⟨hall, ?_⟩
      rw [streamRun]
      rw [if_pos ⟨hpend, rfl⟩]

/-- Witness: C10 at a concrete run — 2 frames with chunk size 5 leave a
nonempty pending buffer; with cancellation disabled the run ignores the
observed flag, is never marked cancelled, and a set post-loop flag drops
exactly the final residual event. -/
theorem c10_disabled_cancellation_witness :
    scW.enableCancellation = false ∧
    streamRun unitsNoEos cfgC2 scW ctx0 ctx0 noise0 obsC true =
      streamRun unitsNoEos cfgC2 scW ctx0 ctx0 noise0 (fun _ => false) true ∧
    (streamRun unitsNoEos cfgC2 scW ctx0 ctx0 noise0 obsC true).cancelled
      = false ∧
    (streamRun unitsNoEos cfgC2 scW ctx0 ctx0 noise0 obsC false).trace =
      (streamRun unitsNoEos cfgC2 scW ctx0 ctx0 noise0 obsC true).trace ++
        [(decodeFinalNT unitsNoEos.decode
            (streamRun unitsNoEos cfgC2 scW ctx0 ctx0 noise0 obsC true).pending
            (streamRun unitsNoEos cfgC2 scW ctx0 ctx0 noise0 obsC true).dec,
          true)] := by
  have h := c10_disabled_cancellation unitsNoEos cfgC2 scW ctx0 ctx0 noise0 rfl
  exact ⟨rfl, h.1 obsC (fun _ => false) true, (h.2 obsC).2.1,
    ((h.2 obsC).2.2 (by decide)).2⟩

/-! ### Claims C3/C6/C8 — audio codec, state allocation, voice encoding -/

/-! #### The WAV container model (`src/audio_utils.cpp`)

The container is modelled at chunk granularity.  Float32 sample payloads
are carried as their exact rational values: float32 → ℚ is injective and
the byte serialization of a float32 is bit-exact, so no information is
gained or lost relative to the byte level.  PCM payloads carry the
assembled (sign-extended) integer sample values.  Byte-level bookkeeping
(chunk sizes, word-aligned skipping, truncated-chunk checks) only decides
which chunks are visible; the model's chunk list is that result. -/

/-- The `fmt ` payload fields (`WavFmtChunk`). -/
structure WavFmt : Type where
  audioFormat : ℕ
  numChannels : ℕ
  sampleRate : ℕ
  byteRate : ℕ
  blockAlign : ℕ
  bitsPerSample : ℕ
deriving DecidableEq

/-- One sub-chunk payload. -/
inductive WavPayload : Type
  | fmtP (f : WavFmt)
  | dataF32 (samples : List ℚ)
  | dataI16 (samples : List ℤ)
  | dataI24 (samples : List ℤ)
  | otherP (byteSize : ℕ)
deriving DecidableEq

/-- A sub-chunk: 4-character id plus payload. -/
structure WavChunk : Type where
  id : String
  payload : WavPayload
deriving DecidableEq

/-- A RIFF/WAVE container: magic validity, the `fileSize` header field and
the chunk list. -/
structure WavFile : Type where
  riffOk : Bool
  fileSize : ℕ
  chunks : List WavChunk
deriving DecidableEq

/-- `AudioUtils::stereoToMono`'s averaging loop:
`mono[i] = (stereo[2i] + stereo[2i+1]) * 0.5f`. -/
def stereoToMonoPairs : List ℚ → List ℚ
  | a :: b :: rest => (a + b) * (1 / 2) :: stereoToMonoPairs rest
  | _ => []

/-- `AudioUtils::stereoToMono`: odd sample counts are a hard failure. -/
def stereoToMonoM (xs : List ℚ) : Except String (List ℚ) :=
  if xs.length % 2 = 0 then Except.ok (stereoToMonoPairs xs)
  else Except.error "Stereo data must have even number of samples"

/-- `std::abs` on a sample value. -/
def qabs (q : ℚ) : ℚ := if q < 0 then -q else q

/-- `AudioUtils::normalize`: attenuate to the fixed target peak `0.85`
only when the absolute peak exceeds it; quiet signals pass unchanged. -/
def normalizeM (audio : List ℚ) : List ℚ :=
  if audio = [] then audio
  else
    let maxVal := audio.foldl (fun m s => max m (qabs s)) 0
    if maxVal ≤ 17 / 20 then audio
    else audio.map (fun s => s * ((17 / 20) / maxVal))

/-- `AudioUtils::resample` with its identity short-circuit
(`inRate == outRate || input.empty()` returns the input untouched); the
windowed-sinc interpolation of the non-identity branch involves
irrational kernel weights and is abstracted as the parameter `rs`. -/
def resampleWith (rs : List ℚ → ℤ → ℤ → List ℚ)
    (input : List ℚ) (inRate outRate : ℤ) : List ℚ :=
  if inRate = outRate ∨ input = [] then input else rs input inRate outRate

/-- The data-chunk decode dispatch of `loadWav` on
`(audioFormat, bitsPerSample)`: float32 is taken verbatim, int16 scales
by `1/32768`, int24 by `1/2^23`; any other combination is the
"Unsupported bit depth" failure. -/
def decodeData (f : WavFmt) (p : WavPayload) : Except String (List ℚ) :=
  match p, f.audioFormat, f.bitsPerSample with
  | WavPayload.dataF32 xs, 3, 32 => Except.ok xs
  | WavPayload.dataI16 xs, 1, 16 =>
    Except.ok (xs.map (fun v => (v : ℚ) * (1 / 32768)))
  | WavPayload.dataI24 xs, 1, 24 =>
    Except.ok (xs.map (fun v => (v : ℚ) * (1 / 8388608)))
  | _, _, _ => Except.error "Unsupported bit depth"

/-- The chunk-scanning loop of `loadWav`: validate and record `fmt `
(PCM/float only, 1-2 channels), require `fmt ` before `data`, decode the
first `data` chunk (downmixing stereo) and stop there, skip unknown
chunks. -/
def scanChunks : List WavChunk → Option WavFmt →
    Except String (Option WavFmt × List ℚ)
  | [], fmtF => Except.ok (fmtF, [])
  | c :: cs, fmtF =>
    if c.id = "fmt " then
      match c.payload with
      | WavPayload.fmtP f =>
        if f.audioFormat ≠ 1 ∧ f.audioFormat ≠ 3 then
          Except.error "Unsupported WAV format (only PCM/float supported)"
        else if f.numChannels < 1 ∨ 2 < f.numChannels then
          Except.error "Unsupported channel count (only mono/stereo)"
        else scanChunks cs (some f)
      | _ => Except.error "Invalid fmt chunk"
    else if c.id = "data" then
      match fmtF with
      | none => Except.error "data chunk before fmt chunk"
      | some f =>
        match decodeData f c.payload with
        | Except.error e => Except.error e
        | Except.ok raw =>
          if f.numChannels = 1 then Except.ok (some f, raw)
          else
            match stereoToMonoM raw with
            | Except.error e => Except.error e
            | Except.ok mono => Except.ok (some f, mono)
    else scanChunks cs fmtF

/-- `AudioUtils::loadWav`: RIFF magic check, chunk scan, the
"No audio data found" check, resampling when the container rate differs
from the target, then peak normalization. -/
def loadWavModel (rs : List ℚ → ℤ → ℤ → List ℚ) (file : WavFile)
    (targetRate : ℕ) : Except String (List ℚ) :=
  if file.riffOk = false then Except.error "Not a valid WAV file"
  else
    match scanChunks file.chunks none with
    | Except.error e => Except.error e
    | Except.ok (fmtF, mono) =>
      if mono = [] then Except.error "No audio data found"
      else
        match fmtF with
        | some f =>
          if f.sampleRate ≠ targetRate then
            Except.ok (normalizeM
              (resampleWith rs mono (f.sampleRate : ℤ) (targetRate : ℤ)))
          else Except.ok (normalizeM mono)
        | none => Except.ok (normalizeM mono)

/-- The `fmt ` record `saveWav` writes: IEEE float (3), mono, 32-bit,
`blockAlign = 4`, `byteRate = rate * 4`. -/
def saveFmt (sampleRate : ℕ) : WavFmt :=
  { audioFormat := 3, numChannels := 1, sampleRate := sampleRate,
    byteRate := sampleRate * 4, blockAlign := 4, bitsPerSample := 32 }

/-- `AudioUtils::saveWav`: RIFF header with
`fileSize = 4 + (8 + 16) + (8 + 4n)`, one `fmt ` chunk, one float32
`data` chunk. -/
def saveWavModel (audioData : List ℚ) (sampleRate : ℕ) : WavFile :=
  { riffOk := true,
    fileSize := 4 + (8 + 16) + (8 + 4 * audioData.length),
    chunks := [
      { id := "fmt ", payload := WavPayload.fmtP (saveFmt sampleRate) },
      { id := "data", payload := WavPayload.dataF32 audioData } ] }

lemma foldlMax_le (l : List ℚ) (c : ℚ) :
    ∀ acc : ℚ, acc ≤ c → (∀ s ∈ l, qabs s ≤ c) →
      l.foldl (fun m s => max m (qabs s)) acc ≤ c := by
  induction l with
  | nil => intro acc hacc _; exact hacc
  | cons a l ih =>
    intro acc hacc hl
    exact ih _ (max_le hacc (hl a (by simp)))
      (fun s hs => hl s (by simp [hs]))

/-- Peak normalization is the identity on signals whose absolute peak
does not exceed `0.85`. -/
lemma normalizeM_of_peak_le (x : List ℚ) (h : ∀ s ∈ x, qabs s ≤ 17 / 20) :
    normalizeM x = x := by
  rw [normalizeM]
  split
  · rfl
  · rw [if_pos (foldlMax_le x (17 / 20) 0 (by norm_num) h)]

/-- Saving any nonempty signal at 24000 Hz and re-loading it at the same
rate decodes the float32 payload verbatim, skips resampling (the rates
agree) and applies only the final peak normalization. -/
lemma loadWav_saveWav_eq_normalize (rs : List ℚ → ℤ → ℤ → List ℚ)
    (x : List ℚ) (hne : x ≠ []) :
    loadWavModel rs (saveWavModel x 24000) 24000 =
      Except.ok (normalizeM x) := by
  have hscan : scanChunks (saveWavModel x 24000).chunks none =
      Except.ok (some (saveFmt 24000), x) := rfl
  rw [loadWavModel]
  rw [if_neg (by simp [saveWavModel])]
  rw [hscan]
  simp only []
  rw [if_neg hne]
  rw [if_neg (by simp [saveFmt])]

/-- Claim C3 (corrected): the save/load round trip at 24000 Hz reproduces
`x` exactly — float32 payloads survive the container bit-for-bit and no
resampling occurs — PROVIDED `x` is nonempty (an empty signal fails the
"No audio data found" check) and its absolute peak does not exceed `0.85`
(`loadWav` ends with peak normalization, which attenuates louder
signals — see the counterexample). -/
theorem c3_wav_round_trip (rs : List ℚ → ℤ → ℤ → List ℚ) (x : List ℚ)
    (hne : x ≠ []) (hpk : ∀ s ∈ x, qabs s ≤ 17 / 20) :
    loadWavModel rs (saveWavModel x 24000) 24000 = Except.ok x := by
  rw [loadWav_saveWav_eq_normalize rs x hne, normalizeM_of_peak_le x hpk]

/-- The identity resampler placeholder (never reached in the round
trip). -/
def rsId : List ℚ → ℤ → ℤ → List ℚ := fun l _ _ => l

/-- Claim C3 as stated is false for loud signals: saving `[1]` and
loading it back yields `[0.85]`, because `loadWav` peak-normalizes any
signal whose absolute peak exceeds `0.85` — a change far beyond float32
rounding. -/
theorem c3_claim_counterexample :
    loadWavModel rsId (saveWavModel [1] 24000) 24000 = Except.ok [17 / 20] ∧
    ([(17 : ℚ) / 20] : List ℚ) ≠ [1] := by
  constructor
  · have hscan : scanChunks (saveWavModel [1] 24000).chunks none =
        Except.ok (some (saveFmt 24000), [1]) := rfl
    rw [loadWavModel]
    rw [if_neg (by simp [saveWavModel])]
    rw [hscan]
    simp only []
    rw [if_neg (by simp)]
    rw [if_neg (by simp [saveFmt])]
    rw [normalizeM]
    rw [if_neg (by simp)]
    simp only []
    rw [if_neg (by norm_num [qabs])]
    norm_num [qabs]
  · norm_num

/-- Witness: the corrected C3 at a concrete quiet signal. -/
theorem c3_wav_round_trip_witness :
    ([(1 : ℚ) / 2, -(1 / 4)] ≠ ([] : List ℚ)) ∧
    loadWavModel rsId (saveWavModel [(1 : ℚ) / 2, -(1 / 4)] 24000) 24000
      = Except.ok [(1 : ℚ) / 2, -(1 / 4)] := by
  refine ⟨by simp, c3_wav_round_trip rsId _ (by simp) ?_⟩
  intro s hs
  fin_cases hs <;> norm_num [qabs]

/-! ### Claim C6 — state allocation in `initState` -/

/-- ONNX element kinds distinguished by the adapter (`dtype` switch). -/
inductive ElemKind : Type
  | f32 | i64 | boolK | otherK
deriving DecidableEq

/-- One declared unit input: name, declared shape (a negative dimension
marks a dynamic one), element kind. -/
structure DeclInput : Type where
  name : String
  dims : List ℤ
  kind : ElemKind
deriving DecidableEq

/-- A recurrent-state slot (`StateEntry`): one buffer per kind, the
resolved shape, the kind tag. -/
structure StEntry : Type where
  floatData : List ℚ
  int64Data : List ℤ
  boolData : List ℕ
  shape : List ℤ
  dtype : ElemKind
deriving DecidableEq

/-- Dynamic-dimension resolution: `if (dim < 0) dim = 0;`. -/
def resolveShape (dims : List ℤ) : List ℤ :=
  dims.map (fun d => if d < 0 then 0 else d)

/-- The running product of `initState`: `if (dim > 0) totalSize *= dim;`
— dimensions equal to zero are SKIPPED, they do not zero the product. -/
def posProd (shape : List ℤ) : ℤ :=
  shape.foldl (fun acc d => if 0 < d then acc * d else acc) 1

/-- `totalSize` with the `totalSize <= 0` fallback to 1 (dead code: a
product of strictly positive factors is positive). -/
def totalSize (shape : List ℤ) : ℤ :=
  if posProd shape ≤ 0 then 1 else posProd shape

/-- Build one zero-filled `StateEntry` of the declared kind; unknown
kinds fall back to float32. -/
def mkStateEntry (dims : List ℤ) (kind : ElemKind) : StEntry :=
  let shape := resolveShape dims
  let n := (totalSize shape).toNat
  match kind with
  | ElemKind.f32 => ⟨List.replicate n 0, [], [], shape, ElemKind.f32⟩
  | ElemKind.i64 => ⟨[], List.replicate n 0, [], shape, ElemKind.i64⟩
  | ElemKind.boolK => ⟨[], [], List.replicate n 0, shape, ElemKind.boolK⟩
  | ElemKind.otherK => ⟨List.replicate n 0, [], [], shape, ElemKind.f32⟩

/-- `name.find("state_") == 0`: the name begins with the six characters
`state_` (stated over the name's character list). -/
def isStateName (s : String) : Bool := s.data.take 6 = "state_".data

/-- `PocketTTS::Impl::initState`: one entry per declared input whose name
begins with `"state_"`.  (The C++ stores entries in a `std::map` keyed by
name; C6 is about each entry's contents, which do not depend on that
ordering, so the model keeps declaration order.) -/
def initStateModel (inputs : List DeclInput) : List (String × StEntry) :=
  (inputs.filter (fun i => isStateName i.name)).map
    (fun i => (i.name, mkStateEntry i.dims i.kind))

/-- The length of the buffer selected by the entry's kind tag. -/
def bufferLen (e : StEntry) : ℕ :=
  match e.dtype with
  | ElemKind.f32 => e.floatData.length
  | ElemKind.i64 => e.int64Data.length
  | ElemKind.boolK => e.boolData.length
  | ElemKind.otherK => e.floatData.length

/-- All stored buffer contents are zero. -/
def entryZero (e : StEntry) : Prop :=
  (∀ q ∈ e.floatData, q = 0) ∧ (∀ z ∈ e.int64Data, z = 0) ∧
    (∀ b ∈ e.boolData, b = 0)

instance (e : StEntry) : Decidable (entryZero e) := by
  unfold entryZero
  infer_instance

/-- Modelled from the claim's words, for comparison with the code's
`totalSize`: the product of the resolved shape, with degenerate
(zero-product) shapes defaulting to a single element. -/
def claimBufferLen (dims : List ℤ) : ℤ :=
  if (resolveShape dims).prod = 0 then 1 else (resolveShape dims).prod

lemma foldl_posProd_pos (shape : List ℤ) :
    ∀ acc : ℤ, 0 < acc →
      0 < shape.foldl (fun acc d => if 0 < d then acc * d else acc) acc := by
  induction shape with
  | nil => intro acc h; exact h
  | cons d ds ih =>
    intro acc h
    simp only [List.foldl_cons]
    split
    · exact ih _ (mul_pos h (by assumption))
    · exact ih _ h

lemma foldl_posProd_all_pos (shape : List ℤ) (h : ∀ d ∈ shape, 0 < d) :
    ∀ acc : ℤ, shape.foldl (fun acc d => if 0 < d then acc * d else acc) acc
      = acc * shape.prod := by
  induction shape with
  | nil => intro acc; simp
  | cons d ds ih =>
    intro acc
    simp only [List.foldl_cons]
    rw [if_pos (h d (by simp))]
    rw [ih (fun x hx => h x (by simp [hx]))]
    rw [List.prod_cons, mul_assoc]

/-- Claim C6 (corrected): every allocated state tensor is zero-filled
with the declared kind (unknown kinds default to float32) and its buffer
length is the product of the STRICTLY POSITIVE dimensions of the resolved
shape — a dimension that resolves to zero is skipped, it neither zeroes
the product nor triggers the (dead) single-element fallback.  The length
therefore equals the shape's product exactly when every resolved
dimension is positive; for shapes containing a zero the stored shape's
product is 0 while the buffer is nonempty, so the claimed invariant
fails (see the counterexample). -/
theorem c6_initState_buffers (inputs : List DeclInput) :
    ∀ p ∈ initStateModel inputs,
      (bufferLen p.2 : ℤ) = posProd p.2.shape ∧
      0 < bufferLen p.2 ∧
      ((∀ d ∈ p.2.shape, 0 < d) → (bufferLen p.2 : ℤ) = p.2.shape.prod) ∧
      entryZero p.2 := by
  intro p hp
  rw [initStateModel] at hp
  obtain ⟨i, _, rfl⟩ := List.mem_map.mp hp
  have hpos : 0 < posProd (resolveShape i.dims) :=
    foldl_posProd_pos (resolveShape i.dims) 1 one_pos
  have hts : totalSize (resolveShape i.dims) = posProd (resolveShape i.dims) := by
    rw [totalSize, if_neg (by omega)]
  have hlen : ∀ k, bufferLen (mkStateEntry i.dims k)
      = (totalSize (resolveShape i.dims)).toNat := by
    intro k
    cases k <;> simp [mkStateEntry, bufferLen]
  have hshape : ∀ k, (mkStateEntry i.dims k).shape = resolveShape i.dims := by
    intro k
    cases k <;> rfl
  refine ⟨?_, ?_, ?_, ?_⟩
  · rw [hlen, hshape, hts, Int.toNat_of_nonneg (le_of_lt hpos)]
  · rw [hlen, hts]
    omega
  · intro hd
    rw [hlen, hshape, hts, Int.toNat_of_nonneg (le_of_lt hpos)]
    rw [hshape] at hd
    rw [posProd, foldl_posProd_all_pos _ hd, one_mul]
  · cases i.kind <;>
      · simp only [mkStateEntry, entryZero]
        refine ⟨?_, ?_, ?_⟩ <;> intro a ha <;>
          first
            | exact List.eq_of_mem_replicate ha
            | exact absurd ha (List.not_mem_nil a)

/-- Declared state input with shape `[2, -1, 3]`: one dynamic dimension
resolving to zero among positive ones. -/
def c6Input : DeclInput := ⟨"state_0", [2, -1, 3], ElemKind.f32⟩

/-- Claim C6 as stated is false on the code: for a declared state shape
`[2, -1, 3]` the claim predicts a single-element buffer (the resolved
shape `[2, 0, 3]` has product 0, the claimed degenerate default), but
`initState` allocates 2·3 = 6 elements, and the stored shape's product is
0 ≠ 6, so the claimed buffer-matches-shape invariant fails as well. -/
theorem c6_claim_counterexample :
    initStateModel [c6Input] =
      [("state_0", mkStateEntry [2, -1, 3] ElemKind.f32)] ∧
    bufferLen (mkStateEntry [2, -1, 3] ElemKind.f32) = 6 ∧
    claimBufferLen c6Input.dims = 1 ∧
    (mkStateEntry [2, -1, 3] ElemKind.f32).shape.prod = 0 ∧
    ((6 : ℤ) ≠ 1 ∧ (6 : ℤ) ≠ 0) := by
  refine ⟨by decide, by decide, by decide, by decide, by decide, by decide⟩

/-- Witness: the corrected C6 at a concrete three-input contract (one
float state slot with a dynamic dimension, one int64 state slot, one
non-state input that is skipped). -/
theorem c6_initState_buffers_witness :
    (⟨"state_0", mkStateEntry [2, -1, 3] ElemKind.f32⟩ : String × StEntry) ∈
      initStateModel [c6Input, ⟨"state_1", [4], ElemKind.i64⟩,
        ⟨"sequence", [1, 0, 32], ElemKind.f32⟩] ∧
    (bufferLen (mkStateEntry [2, -1, 3] ElemKind.f32) : ℤ) =
      posProd (mkStateEntry [2, -1, 3] ElemKind.f32).shape ∧
    entryZero (mkStateEntry [2, -1, 3] ElemKind.f32) := by
  have hmem : (⟨"state_0", mkStateEntry [2, -1, 3] ElemKind.f32⟩ :
      String × StEntry) ∈
      initStateModel [c6Input, ⟨"state_1", [4], ElemKind.i64⟩,
        ⟨"sequence", [1, 0, 32], ElemKind.f32⟩] := by decide
  have h := c6_initState_buffers
    [c6Input, ⟨"state_1", [4], ElemKind.i64⟩,
      ⟨"sequence", [1, 0, 32], ElemKind.f32⟩] _ hmem
  exact ⟨hmem, h.1, h.2.2.2⟩

/-! ### Claim C8 — voice-reference truncation -/

/-- `MAX_REFERENCE_SAMPLES = TARGET_SAMPLE_RATE * 5`. -/
def maxReferenceSamples : ℕ := 24000 * 5

/-- The core of `encodeVoice` after the WAV decode (and after the cache
miss): truncate the decoded waveform to at most `MAX_REFERENCE_SAMPLES`
(`if (audio.size() > MAX) audio.resize(MAX)`), then invoke the voice
encoder on it.  The encoder unit is the parameter `enc`. -/
def encodeVoiceCore (enc : List ℚ → List ℚ) (audio : List ℚ) : List ℚ :=
  enc (if maxReferenceSamples < audio.length
       then audio.take maxReferenceSamples else audio)

/-- The conditional truncation is plain `take`. -/
lemma encodeVoiceCore_take (enc : List ℚ → List ℚ) (audio : List ℚ) :
    encodeVoiceCore enc audio = enc (audio.take maxReferenceSamples) := by
  rw [encodeVoiceCore]
  split
  · rfl
  · next h => rw [List.take_of_length_le (by omega)]

/-- `PocketTTS::Impl::encodeVoice` on a cache miss, end to end: decode
the reference file with `loadWav` at the 24000 Hz target rate (including
its resampling and whole-file peak normalization), truncate the decoded
waveform, and run the voice-encoder unit `enc` on the result. -/
def encodeVoiceModel (rs : List ℚ → ℤ → ℤ → List ℚ)
    (enc : List ℚ → List ℚ) (file : WavFile) : Except String (List ℚ) :=
  match loadWavModel rs file 24000 with
  | Except.error e => Except.error e
  | Except.ok audio => Except.ok (encodeVoiceCore enc audio)

/-- Claim C8 (corrected): the truncation to `MAX_REFERENCE_SAMPLES =
120000` (5 s at 24000 Hz) happens only AFTER `loadWav` returns.  So the
embedding depends only on the first 120000 samples of the DECODED
waveform (second clause); but `loadWav` ends with a peak normalization
whose gain is computed over the WHOLE file, so file content beyond 5 s
can still change the embedding (see the counterexample).  Tail content of
the file has no effect only when the decode stage is inert on it — e.g.
for 24000 Hz float32 mono files whose full signals stay within the 0.85
peak (third clause). -/
theorem c8_voice_truncation (rs : List ℚ → ℤ → ℤ → List ℚ)
    (enc : List ℚ → List ℚ) (a b xa xb : List ℚ)
    (hdec : a.take maxReferenceSamples = b.take maxReferenceSamples)
    (hane : xa ≠ []) (hbne : xb ≠ [])
    (hapk : ∀ s ∈ xa, qabs s ≤ 17 / 20)
    (hbpk : ∀ s ∈ xb, qabs s ≤ 17 / 20)
    (hfile : xa.take maxReferenceSamples = xb.take maxReferenceSamples) :
    maxReferenceSamples = 120000 ∧
    encodeVoiceCore enc a = encodeVoiceCore enc b ∧
    encodeVoiceModel rs enc (saveWavModel xa 24000)
      = encodeVoiceModel rs enc (saveWavModel xb 24000) := by
  refine ⟨rfl, ?_, ?_⟩
  · rw [encodeVoiceCore_take, encodeVoiceCore_take, hdec]
  · rw [encodeVoiceModel, encodeVoiceModel,
      loadWav_saveWav_eq_normalize rs xa hane,
      loadWav_saveWav_eq_normalize rs xb hbne,
      normalizeM_of_peak_le xa hapk, normalizeM_of_peak_le xb hbpk]
    simp only []
    rw [encodeVoiceCore_take, encodeVoiceCore_take, hfile]

/-- First five seconds shared by both counterexample files:
120000 samples at one half. -/
def quietHead : List ℚ := List.replicate maxReferenceSamples (1 / 2)

/-- File A: quiet tail sample (the whole signal peaks at 1/2). -/
def fileSamplesA : List ℚ := quietHead ++ [1 / 2]

/-- File B: identical first five seconds, loud tail sample 1. -/
def fileSamplesB : List ℚ := quietHead ++ [1]

lemma append_singleton_ne_nil (l : List ℚ) (x : ℚ) : l ++ [x] ≠ [] := by
  intro h
  have := congrArg List.length h
  rw [List.length_append, List.length_singleton, List.length_nil] at this
  omega

lemma take_quietHead (x : ℚ) :
    (quietHead ++ [x]).take maxReferenceSamples = quietHead := by
  rw [List.take_append_of_le_length
    (by rw [quietHead, List.length_replicate])]
  rw [List.take_of_length_le (by rw [quietHead, List.length_replicate])]

lemma foldlMax_fileB :
    fileSamplesB.foldl (fun m s => max m (qabs s)) 0 = 1 := by
  rw [fileSamplesB, List.foldl_append, List.foldl_cons, List.foldl_nil]
  have hle : quietHead.foldl (fun m s => max m (qabs s)) 0 ≤ 1 :=
    foldlMax_le _ 1 0 (by norm_num)
      (fun s hs => by
        rw [quietHead] at hs
        rw [List.eq_of_mem_replicate hs]
        norm_num [qabs])
  rw [show qabs 1 = 1 by norm_num [qabs]]
  exact max_eq_right hle

/-- The loud tail drives the whole-file gain: `loadWav` returns file B's
samples scaled by `0.85 / 1`. -/
lemma normalizeM_fileB :
    normalizeM fileSamplesB =
      fileSamplesB.map (fun s => s * ((17 / 20) / 1)) := by
  rw [normalizeM]
  rw [if_neg (by rw [fileSamplesB]; exact append_singleton_ne_nil _ _)]
  simp only []
  rw [foldlMax_fileB]
  rw [if_neg (by norm_num)]

/-- Claim C8 as stated is false on the code: files A and B are float32
mono 24000 Hz files identical throughout their first 5 seconds, yet they
produce different encoder inputs (`enc := id` exposes the encoder input):
file B's loud tail sample raises the whole-file peak above 0.85, so
`loadWav`'s normalization rescales the first 120000 samples before the
truncation runs. -/
theorem c8_claim_counterexample :
    fileSamplesA.take maxReferenceSamples
      = fileSamplesB.take maxReferenceSamples ∧
    encodeVoiceModel rsId id (saveWavModel fileSamplesA 24000)
      ≠ encodeVoiceModel rsId id (saveWavModel fileSamplesB 24000) := by
  constructor
  · rw [fileSamplesA, fileSamplesB, take_quietHead, take_quietHead]
  · have hA : encodeVoiceModel rsId id (saveWavModel fileSamplesA 24000)
        = Except.ok quietHead := by
      rw [encodeVoiceModel,
        loadWav_saveWav_eq_normalize rsId fileSamplesA
          (by rw [fileSamplesA]; exact append_singleton_ne_nil _ _)]
      rw [normalizeM_of_peak_le fileSamplesA
        (by intro s hs
            rw [fileSamplesA] at hs
            rcases List.mem_append.mp hs with hs2 | hs2
            · rw [quietHead] at hs2
              rw [List.eq_of_mem_replicate hs2]
              norm_num [qabs]
            · rw [List.mem_singleton.mp hs2]
              norm_num [qabs])]
      simp only []
      rw [encodeVoiceCore_take, id_eq, fileSamplesA, take_quietHead]
    have hB : encodeVoiceModel rsId id (saveWavModel fileSamplesB 24000)
        = Except.ok (List.replicate maxReferenceSamples
            ((1 / 2) * ((17 / 20) / 1))) := by
      rw [encodeVoiceModel,
        loadWav_saveWav_eq_normalize rsId fileSamplesB
          (by rw [fileSamplesB]; exact append_singleton_ne_nil _ _)]
      simp only []
      rw [encodeVoiceCore_take, id_eq, normalizeM_fileB, fileSamplesB,
        List.map_append]
      rw [List.take_append_of_le_length
        (by rw [List.length_map, quietHead, List.length_replicate])]
      rw [List.take_of_length_le
        (by rw [List.length_map, quietHead, List.length_replicate])]
      rw [quietHead, List.map_replicate]
    rw [hA, hB]
    intro h
    have h2 : quietHead = List.replicate maxReferenceSamples
        ((1 / 2) * ((17 / 20) / 1)) := by
      injection h
    have h3 := congrArg (fun l => l[0]?) h2
    rw [quietHead] at h3
    simp only [List.getElem?_replicate] at h3
    rw [if_pos (by norm_num [maxReferenceSamples])] at h3
    rw [if_pos (by norm_num [maxReferenceSamples])] at h3
    have h4 : ((1 : ℚ) / 2) = (1 / 2) * ((17 / 20) / 1) :=
      Option.some_inj.mp h3
    norm_num at h4

/-- An encoder observing the whole input (embeds its length). -/
def encLen : List ℚ → List ℚ := fun l => [(l.length : ℚ)]

/-- Witness: the corrected C8 — decoded waveforms differing only after
sample 120000 give the same embedding, and two quiet (peak ≤ 0.85)
same-rate files differing only after 5 s give the same embedding. -/
theorem c8_voice_truncation_witness :
    (List.replicate maxReferenceSamples (0 : ℚ) ++ [1]).take
        maxReferenceSamples =
      (List.replicate maxReferenceSamples (0 : ℚ) ++ [2]).take
        maxReferenceSamples ∧
    encodeVoiceCore encLen (List.replicate maxReferenceSamples (0 : ℚ) ++ [1])
      = encodeVoiceCore encLen
          (List.replicate maxReferenceSamples (0 : ℚ) ++ [2]) ∧
    encodeVoiceModel rsId encLen
        (saveWavModel (quietHead ++ [1 / 4]) 24000)
      = encodeVoiceModel rsId encLen
          (saveWavModel (quietHead ++ [3 / 4]) 24000) := by
  have ht : ∀ x : ℚ,
      (List.replicate maxReferenceSamples (0 : ℚ) ++ [x]).take
          maxReferenceSamples =
        List.replicate maxReferenceSamples (0 : ℚ) := by
    intro x
    rw [List.take_append_of_le_length (by rw [List.length_replicate])]
    rw [List.take_of_length_le (by rw [List.length_replicate])]
  have hpk : ∀ y : ℚ, qabs y ≤ 17 / 20 →
      ∀ s ∈ quietHead ++ [y], qabs s ≤ 17 / 20 := by
    intro y hy s hs
    rcases List.mem_append.mp hs with hs2 | hs2
    · rw [quietHead] at hs2
      rw [List.eq_of_mem_replicate hs2]
      norm_num [qabs]
    · rw [List.mem_singleton.mp hs2]
      exact hy
  have h := c8_voice_truncation rsId encLen
    (List.replicate maxReferenceSamples (0 : ℚ) ++ [1])
    (List.replicate maxReferenceSamples (0 : ℚ) ++ [2])
    (quietHead ++ [1 / 4]) (quietHead ++ [3 / 4])
    ((ht 1).trans (ht 2).symm)
    (append_singleton_ne_nil quietHead (1 / 4))
    (append_singleton_ne_nil quietHead (3 / 4))
    (hpk (1 / 4) (by norm_num [qabs]))
    (hpk (3 / 4) (by norm_num [qabs]))
    ((take_quietHead (1 / 4)).trans (take_quietHead (3 / 4)).symm)
  exact ⟨(ht 1).trans (ht 2).symm, h.2.1, h.2.2⟩

end PocketTTS
